import Mathlib

/-!
# f9pcap4mcast: a shallow embedding of the capture session

The definitions below follow `f9pcap4mcast.cpp`.  Machine integers are natural
numbers reduced modulo the width of the C++ type at every operation that can
wrap.  Global variables and the members of `F9pcapDumpSession` are the fields of
one explicit state record, `Session`.  The byte queue handed to `OnDevice_Recv`
is a list of bytes; the ordered container `std::multiset<PcapRecPtr>` is a list
kept in iteration order.
-/

namespace F9pcap

/-! ## Constants and machine arithmetic -/

/-- Value of the macro `kMAX_PK_SIZE`. -/
def kMAX_PK_SIZE : Nat := 2048

/-- Value of `kDivisorNS`, that is `fon9::DecDivisor<uint64_t, 9>::Divisor`: ten to the ninth. -/
def kDivisorNS : Nat := 1000000000

/-- Value of `kPkHdrSize = sizeof(pkHdr) - sizeof(pkHdr.Payload_)` under `fon9_PACK(1)`:
the fields `TTS_` (8), `PkBytes_` (4), `PkBadCount_` (2) and `Padding2b_` (2). -/
def kPkHdrSize : Nat := 16

/-- Size of `PcapFileRecHdr`, that is `sizeof(rec) - sizeof(rec.packet_buffer)`: four `uint32_t`. -/
def kRecHdrSize : Nat := 16

/-- Conversion to `uint64_t`. -/
def u64 (n : Nat) : Nat := n % 2 ^ 64

/-- Conversion to `uint32_t`. -/
def u32 (n : Nat) : Nat := n % 2 ^ 32

/-- Conversion to `uint16_t`. -/
def u16 (n : Nat) : Nat := n % 2 ^ 16

/-- Addition of two `uint64_t` values. -/
def u64add (x y : Nat) : Nat := u64 (x + y)

/-- Subtraction of two `uint64_t` values, wrapping below zero. -/
def u64sub (x y : Nat) : Nat := u64 (u64 x + 2 ^ 64 - u64 y)

/-- Multiplication of two `uint64_t` values. -/
def u64mul (x y : Nat) : Nat := u64 (x * y)

/-! ## Data model -/

/-- The struct `PcapFileRecHdr`. -/
structure PcapFileRecHdr where
  ts_sec : Nat
  ts_xsec : Nat
  incl_len : Nat
  orig_len : Nat
deriving DecidableEq, Repr

/-- The struct `PcapFileRec`: the record header followed by `packet_buffer`.  The list holds
the bytes that have been stored into the array, from index 0. -/
structure PcapFileRec extends PcapFileRecHdr where
  packet_buffer : List Nat
deriving DecidableEq, Repr

/-- The comparison `operator<(const PcapFileRecHdr&, const PcapFileRecHdr&)`. -/
def PcapFileRecHdr.lt (lhs rhs : PcapFileRecHdr) : Bool :=
  if lhs.ts_sec = rhs.ts_sec then decide (lhs.ts_xsec < rhs.ts_xsec)
  else decide (lhs.ts_sec < rhs.ts_sec)

/-- The comparison `operator<(const PcapRecPtr&, const PcapRecPtr&)`, on the pointed-to records. -/
def PcapFileRec.lt (lhs rhs : PcapFileRec) : Bool :=
  lhs.toPcapFileRecHdr.lt rhs.toPcapFileRecHdr

/-- The struct `f9epbc_RxPkHeader` after `AdjustEndian`, without the flexible `Payload_`. -/
structure f9epbc_RxPkHeader where
  TTS_ : Nat
  PkBytes_ : Nat
  PkBadCount_ : Nat
  Padding2b_ : List Nat
deriving DecidableEq, Repr

/-- Requests handed to the logging facility, one constructor per message of the source. -/
inductive LogEvent where
  /-- The debug message "Pk Lost|PkTime=..|Lost=<lastLost>", followed by
  " - <expected> = <lostCount>" when `range` is `some (expected, lostCount)`. -/
  | PkLost (pkTime lastLost : Nat) (range : Option (Nat × Nat))
  /-- The debug message "Pk out of order|Expected=..|Curr=..". -/
  | PkOutOfOrder (expected curr : Nat)
  /-- The error message "Bad pk size=..|RxSize=..|At.PcapCount=..|At.RxEvCount=..|At.PkTime=..|"
  followed by the hex dump of the header bytes. -/
  | BadPkSize (pkBytes rxSize pcapCount rxEvCount pkTime : Nat) (hdrBytes : List Nat)
deriving DecidableEq, Repr

/-- Process environment that the capture code reads but never writes. -/
structure Env where
  /-- The flag `gIsCheckLost`, set from the command line before the device starts. -/
  gIsCheckLost : Bool
  /-- Byte order of the host, used where the source reads or writes raw memory. -/
  hostBigEndian : Bool
  /-- The value `fon9::UtcNow().ShiftUnit<kScaleNS>()` returned by the k-th reading of the clock. -/
  utcNowNS : Nat → Nat

/-- The global variables of the file together with the members of `F9pcapDumpSession`. -/
structure Session where
  g1stPkTimeStampNS : Nat := 0
  g1stPkTickClkN : Nat := 0
  gLastRxNS : Nat := 0
  gLastAppNS : Nat := 0
  gPkSeqNext : Nat := 0
  PcapCount_ : Nat := 0
  RxEvCount_ : Nat := 0
  /-- The container `gPcapList`, in iteration order. -/
  gPcapList : List PcapFileRec := []
  /-- The bytes appended to `gPcapOutFile`. -/
  gPcapOutFile : List Nat := []
  /-- Trace of the arguments of the calls of `AppendPcapRec`, oldest first. -/
  appended : List PcapFileRec := []
  /-- Trace of the logging requests, oldest first. -/
  logs : List LogEvent := []
  /-- Number of readings of the clock so far. -/
  clockReads : Nat := 0
deriving DecidableEq, Repr

/-! ## Timestamp reconstruction -/

/-- The function `CalcPkTimeStampNS`. -/
def CalcPkTimeStampNS (s : Session) (pkHdr : f9epbc_RxPkHeader) : Nat :=
  u64add s.g1stPkTimeStampNS (u64mul (u64sub pkHdr.TTS_ s.g1stPkTickClkN) 64 / 10)

/-- The original value handed to `TimeStampFromNS`: microseconds. -/
def TimeStampFromNS (ns : Nat) : Nat := ns / 1000

/-- The function `GetPkTimeStamp`. -/
def GetPkTimeStamp (s : Session) (pkHdr : f9epbc_RxPkHeader) : Nat :=
  TimeStampFromNS (CalcPkTimeStampNS s pkHdr)

/-! ## Byte order -/

/-- The function `fon9::GetLittleEndian`: the value of a byte sequence read least significant
byte first. -/
def GetLittleEndian (bytes : List Nat) : Nat :=
  bytes.foldr (fun b acc => b % 256 + 256 * acc) 0

/-- Value obtained by reading raw bytes as an unsigned integer of the host. -/
def hostValue (hostBigEndian : Bool) (bytes : List Nat) : Nat :=
  if hostBigEndian then GetLittleEndian bytes.reverse else GetLittleEndian bytes

/-- The four bytes of a `uint32_t`, least significant first. -/
def bytesLE32 (v : Nat) : List Nat :=
  [v % 256, v / 256 % 256, v / 65536 % 256, v / 16777216 % 256]

/-- The four bytes a `uint32_t` occupies in the memory of the host. -/
def hostBytes32 (hostBigEndian : Bool) (v : Nat) : List Nat :=
  if hostBigEndian then (bytesLE32 v).reverse else bytesLE32 v

/-- The copy `pkHdr = *pPkHdr` followed by `pkHdr.AdjustEndian()`, from the sixteen peeked
bytes: `TTS_`, `PkBytes_` and `PkBadCount_` are read little-endian, `Padding2b_` is kept raw. -/
def AdjustEndian (raw : List Nat) : f9epbc_RxPkHeader :=
  { TTS_ := GetLittleEndian (raw.take 8)
    PkBytes_ := GetLittleEndian ((raw.drop 8).take 4)
    PkBadCount_ := GetLittleEndian ((raw.drop 12).take 2)
    Padding2b_ := (raw.drop 14).take 2 }

/-! ## The byte queue of the device -/

/-- Modelled from the spec: the receive queue `fon9::DcQueue` of the network device, which is
library code outside the repository; it is a queue of buffered bytes, oldest first. -/
abbrev DcQueue := List Nat

/-- Modelled from the spec: `DcQueue::CalcSize`, the number of buffered bytes. -/
def DcQueue.CalcSize (rxbuf : DcQueue) : Nat := rxbuf.length

/-- Modelled from the spec: `DcQueue::Peek`, the first `n` bytes without consuming them, or
nothing when fewer than `n` bytes are buffered. -/
def DcQueue.Peek (rxbuf : DcQueue) (n : Nat) : Option (List Nat) :=
  if n ≤ rxbuf.length then some (rxbuf.take n) else none

/-- Modelled from the spec: `DcQueue::PopConsumed`, which discards the first `n` bytes; a queue
holding fewer than `n` bytes is left empty. -/
def DcQueue.PopConsumed (rxbuf : DcQueue) (n : Nat) : DcQueue := rxbuf.drop n

/-- Modelled from the spec: `DcQueue::Read`, which moves the first `n` bytes out of the queue. -/
def DcQueue.Read (rxbuf : DcQueue) (n : Nat) : List Nat × DcQueue :=
  (rxbuf.take n, rxbuf.drop n)

/-! ## The reorder container and the capture file -/

/-- The call `std::multiset::insert` under `operator<`: the new element goes before the first
element that compares greater, hence after every equivalent element. -/
def PcapListImpl.insert (prec : PcapFileRec) : List PcapFileRec → List PcapFileRec
  | [] => [prec]
  | e :: es => if prec.lt e then prec :: e :: es else e :: PcapListImpl.insert prec es

/-- Memory image of a `PcapFileRec` from its first byte: the four header fields in host byte
order, then the stored bytes of `packet_buffer`. -/
def PcapFileRec.memory (hostBigEndian : Bool) (rec : PcapFileRec) : List Nat :=
  hostBytes32 hostBigEndian rec.ts_sec ++ hostBytes32 hostBigEndian rec.ts_xsec ++
    hostBytes32 hostBigEndian rec.incl_len ++ hostBytes32 hostBigEndian rec.orig_len ++
    rec.packet_buffer

/-- Modelled from the spec: `fon9::File::Append(ptr, size)`, the durable-append primitive of
the library; it appends `size` bytes read from the memory at `ptr`.  A byte that was never
stored reads as 0. -/
def File.Append (file : List Nat) (mem : List Nat) (size : Nat) : List Nat :=
  file ++ (List.range size).map (fun i => mem.getD i 0)

/-- The function `AppendPcapRec`. -/
def AppendPcapRec (env : Env) (s : Session) (rec : PcapFileRec) : Session :=
  { s with
    gLastAppNS := u64 (rec.ts_sec * kDivisorNS + rec.ts_xsec)
    gPcapOutFile :=
      File.Append s.gPcapOutFile (rec.memory env.hostBigEndian) (kRecHdrSize + rec.incl_len)
    appended := s.appended ++ [rec] }

/-! ## Receiving -/

/-- The statement `if (gIsCheckLost) { ... }` of `OnDevice_Recv`: the check of the sequence
number carried in `Padding2b_`. -/
def checkLost (env : Env) (s : Session) (pkHdr : f9epbc_RxPkHeader) : Session :=
  if env.gIsCheckLost then
    let pkseq := hostValue env.hostBigEndian pkHdr.Padding2b_
    if pkseq ≠ s.gPkSeqNext then
      if s.gPkSeqNext < pkseq then
        let s1 :=
          if s.g1stPkTimeStampNS ≠ 0 then
            let lostCount := u16 (pkseq - s.gPkSeqNext)
            let range := if lostCount > 1 then some (s.gPkSeqNext, lostCount) else none
            { s with
              logs := s.logs ++ [LogEvent.PkLost (GetPkTimeStamp s pkHdr) (u16 (pkseq - 1)) range] }
          else s
        { s1 with gPkSeqNext := u16 (pkseq + 1) }
      else
        { s with logs := s.logs ++ [LogEvent.PkOutOfOrder s.gPkSeqNext pkseq] }
    else
      { s with gPkSeqNext := u16 (pkseq + 1) }
  else s

/-- The path an iteration of the loop of `OnDevice_Recv` takes. -/
inductive Branch where
  /-- The call `Peek` found fewer than `kPkHdrSize` bytes: the loop ends. -/
  | noHeader
  /-- The branch of the bad packet size, ended by `continue`. -/
  | badSize
  /-- The frame is not fully buffered: `break`. -/
  | incomplete
  /-- The tick is smaller than the anchor tick: the payload is dropped, `continue`. -/
  | stale
  /-- A record is built and inserted. -/
  | accepted
deriving DecidableEq, Repr

/-- Result of one iteration: the path taken, the session and the queue afterwards. -/
structure StepOut where
  branch : Branch
  ses : Session
  rxbuf : DcQueue
deriving DecidableEq, Repr

/-- The end of the loop body of `OnDevice_Recv`, from `PcapRecPtr prec{new PcapFileRec}` to
`++this->PcapCount_`; the header has been consumed already. -/
def buildRec (s : Session) (pkHdr : f9epbc_RxPkHeader) (rxbuf : DcQueue) : StepOut :=
  let ts := CalcPkTimeStampNS s pkHdr
  let rd := DcQueue.Read rxbuf pkHdr.PkBytes_
  let prec : PcapFileRec :=
    { ts_sec := u32 (ts / kDivisorNS)
      ts_xsec := u32 (ts % kDivisorNS)
      incl_len := pkHdr.PkBytes_
      orig_len := pkHdr.PkBytes_
      packet_buffer := rd.1 }
  { branch := Branch.accepted
    ses := { s with
      gLastRxNS := ts
      gPcapList := PcapListImpl.insert prec s.gPcapList
      PcapCount_ := u64 (s.PcapCount_ + 1) }
    rxbuf := rd.2 }

/-- One iteration of the loop `while (... rxbuf.Peek(&pkHdr, kPkHdrSize))` of `OnDevice_Recv`. -/
def recvStep (env : Env) (s0 : Session) (rxbuf : DcQueue) : StepOut :=
  match DcQueue.Peek rxbuf kPkHdrSize with
  | none => { branch := Branch.noHeader, ses := s0, rxbuf := rxbuf }
  | some raw =>
    let pkHdr := AdjustEndian raw
    let s := checkLost env s0 pkHdr
    if pkHdr.PkBytes_ < 60 ∨ kMAX_PK_SIZE ≤ pkHdr.PkBytes_ then
      let ev := LogEvent.BadPkSize pkHdr.PkBytes_ (DcQueue.CalcSize rxbuf) s.PcapCount_
        s.RxEvCount_ (GetPkTimeStamp s pkHdr) raw
      { branch := Branch.badSize
        ses := { s with logs := s.logs ++ [ev] }
        rxbuf := DcQueue.PopConsumed rxbuf (kPkHdrSize + pkHdr.PkBytes_) }
    else if DcQueue.CalcSize rxbuf < kPkHdrSize + pkHdr.PkBytes_ then
      { branch := Branch.incomplete, ses := s, rxbuf := rxbuf }
    else
      let rxbuf1 := DcQueue.PopConsumed rxbuf kPkHdrSize
      if s.g1stPkTickClkN = 0 then
        buildRec
          { s with
            g1stPkTickClkN := pkHdr.TTS_
            g1stPkTimeStampNS := u64 (env.utcNowNS s.clockReads)
            clockReads := s.clockReads + 1 }
          pkHdr rxbuf1
      else if pkHdr.TTS_ < s.g1stPkTickClkN then
        { branch := Branch.stale, ses := s, rxbuf := DcQueue.PopConsumed rxbuf1 pkHdr.PkBytes_ }
      else
        buildRec s pkHdr rxbuf1

/-- The loop of `OnDevice_Recv`, bounded by `fuel` iterations; `none` when the bound is
reached before the loop ends. -/
def recvLoop (env : Env) : Nat → Session → DcQueue → Option (Session × DcQueue)
  | 0, _, _ => none
  | fuel + 1, s, rxbuf =>
    let out := recvStep env s rxbuf
    match out.branch with
    | Branch.noHeader => some (out.ses, out.rxbuf)
    | Branch.incomplete => some (out.ses, out.rxbuf)
    | _ => recvLoop env fuel out.ses out.rxbuf

/-- The method `F9pcapDumpSession::OnDevice_Recv`: the session and the queue when it returns.
The bound on the iterations is one more than the number of buffered bytes. -/
def OnDevice_Recv (env : Env) (s : Session) (rxbuf : DcQueue) : Option (Session × DcQueue) :=
  recvLoop env (rxbuf.length + 1) { s with RxEvCount_ := u64 (s.RxEvCount_ + 1) } rxbuf

/-- The header that an iteration of the loop decodes from the first `kPkHdrSize` bytes. -/
def peekedHdr (rxbuf : DcQueue) : f9epbc_RxPkHeader :=
  AdjustEndian (rxbuf.take kPkHdrSize)

/-- An environment for concrete evaluations: loss checking off, little-endian host, and a
clock whose k-th reading is `1700000000000000000 + k` nanoseconds. -/
def sampleEnv : Env :=
  { gIsCheckLost := false, hostBigEndian := false, utcNowNS := fun k => 1700000000000000000 + k }

/-- The environment `sampleEnv` with loss checking on. -/
def sampleEnvL : Env :=
  { sampleEnv with gIsCheckLost := true }

/-- The sixteen header bytes of a frame on the wire: tick, payload byte count, bad-packet
counter and sequence number, for ticks below `2 ^ 16` and byte counts below `2 ^ 16`. -/
def sampleHdr (tick pkBytes pkseq : Nat) : List Nat :=
  [tick % 256, tick / 256 % 256, 0, 0, 0, 0, 0, 0, pkBytes % 256, pkBytes / 256 % 256, 0, 0, 0, 0,
    pkseq % 256, pkseq / 256 % 256]

/-- A frame on the wire for concrete evaluations: the header of `sampleHdr` and `pkBytes`
payload bytes, all equal to `fill`. -/
def sampleFrame (tick pkBytes pkseq fill : Nat) : List Nat :=
  sampleHdr tick pkBytes pkseq ++ List.replicate pkBytes fill

/-! ## Draining -/

/-- The method `F9pcapDumpSession::FlushPcapRec`: the container is moved out and every record
is appended in iteration order. -/
def FlushPcapRec (env : Env) (s : Session) : Session :=
  s.gPcapList.foldl (AppendPcapRec env) { s with gPcapList := [] }

/-- The local `flushBf` of `OnDevice_CommonTimer`, from the cutoff
`bfns = unsigned_cast((now - gFlushPcapInterval).ShiftUnit<kScaleNS>())`.  The source leaves
the two length fields unset; `operator<` never reads them. -/
def flushBf (bfns : Nat) : PcapFileRecHdr :=
  { ts_sec := u32 (bfns / kDivisorNS), ts_xsec := u32 (bfns % kDivisorNS), incl_len := 0, orig_len := 0 }

/-- One iteration of the loop `for (;;)` of `OnDevice_CommonTimer`; `none` when the loop ends
(`break` on an empty container, `return` when `flushBf < *rec`). -/
def timerStep (env : Env) (cutoff : PcapFileRecHdr) (s : Session) : Option Session :=
  match s.gPcapList with
  | [] => none
  | rec :: rest =>
    if cutoff.lt rec.toPcapFileRecHdr then none
    else some (AppendPcapRec env { s with gPcapList := rest } rec)

/-- The loop of `OnDevice_CommonTimer`, bounded by `fuel` iterations; `none` when the bound is
reached before the loop ends. -/
def timerLoop (env : Env) (cutoff : PcapFileRecHdr) : Nat → Session → Option Session
  | 0, _ => none
  | fuel + 1, s =>
    match timerStep env cutoff s with
    | none => some s
    | some s1 => timerLoop env cutoff fuel s1

/-- The method `F9pcapDumpSession::OnDevice_CommonTimer`, given the cutoff `bfns` in
nanoseconds.  The bound on the iterations is one more than the number of queued records. -/
def OnDevice_CommonTimer (env : Env) (bfns : Nat) (s : Session) : Option Session :=
  timerLoop env (flushBf bfns) (s.gPcapList.length + 1) s

/-! ## Sequences of container operations -/

/-- A list of records is non-decreasing by the key `(ts_sec, ts_xsec)`: no record compares
less, under `operator<`, than a record that comes before it. -/
def NonDecreasing (l : List PcapFileRec) : Prop :=
  l.Pairwise (fun a b => b.lt a = false)

/-- The operations on the reorder container: the insertion `gPcapList.Lock()->insert(prec)`
of `OnDevice_Recv`, the periodic drain `OnDevice_CommonTimer` with its cutoff in nanoseconds,
and the forced drain `FlushPcapRec`. -/
inductive Op where
  | insert (prec : PcapFileRec)
  | timer (bfns : Nat)
  | flush
deriving DecidableEq, Repr

/-- Effect of one operation on the session, each operation taken as a whole. -/
def applyOp (env : Env) (s : Session) : Op → Option Session
  | Op.insert prec => some { s with gPcapList := PcapListImpl.insert prec s.gPcapList }
  | Op.timer bfns => OnDevice_CommonTimer env bfns s
  | Op.flush => some (FlushPcapRec env s)

/-- Effect of a sequence of operations, first to last. -/
def runOps (env : Env) : Session → List Op → Option Session
  | s, [] => some s
  | s, op :: ops => (applyOp env s op).bind (fun s1 => runOps env s1 ops)

/-- Test that, along a sequence of operations, no record is inserted whose key is less than
the key of a record that has already been appended to the file. -/
def inOrderArrival (env : Env) : Session → List Op → Bool
  | _, [] => true
  | s, op :: ops =>
    (match op with
      | Op.insert prec => s.appended.all (fun a => !prec.lt a)
      | _ => true)
    && (match applyOp env s op with
      | some s1 => inOrderArrival env s1 ops
      | none => false)

/-- The container reached from the empty one by inserting the records of `recs` in their
order of arrival. -/
def PcapListImpl.ofArrivals (recs : List PcapFileRec) : List PcapFileRec :=
  recs.foldl (fun l prec => PcapListImpl.insert prec l) []

/-- The order kept between the container and the file: the container and the appended
records are each non-decreasing, and no queued record is less than an appended one. -/
def OrderInv (s : Session) : Prop :=
  NonDecreasing s.gPcapList ∧ NonDecreasing s.appended
    ∧ ∀ a ∈ s.appended, ∀ b ∈ s.gPcapList, b.lt a = false

/-- A session for concrete evaluations: anchored at tick 1000 and wall-clock
1700000000000000000 ns, with `next` as the expected sequence number. -/
def sampleAnchored (next : Nat) : Session :=
  { gPkSeqNext := next, g1stPkTimeStampNS := 1700000000000000000, g1stPkTickClkN := 1000 }

/-- A record for concrete evaluations: 60 payload bytes equal to `fill`, stamped `sec`
seconds and `xsec` nanoseconds. -/
def sampleRec (sec xsec fill : Nat) : PcapFileRec :=
  { ts_sec := sec, ts_xsec := xsec, incl_len := 60, orig_len := 60
    packet_buffer := List.replicate 60 fill }

/-! ## The capture file header and the start-up code -/

/-- The two bytes of a `uint16_t`, least significant first. -/
def bytesLE16 (v : Nat) : List Nat :=
  [v % 256, v / 256 % 256]

/-- The two bytes a `uint16_t` occupies in the memory of the host. -/
def hostBytes16 (hostBigEndian : Bool) (v : Nat) : List Nat :=
  if hostBigEndian then (bytesLE16 v).reverse else bytesLE16 v

/-- The struct `PcapFileHdr` with its default member initialisers. -/
structure PcapFileHdr where
  magic_number : Nat := 0xa1b23c4d
  version_major : Nat := 2
  version_minor : Nat := 4
  thiszone : Int := 0
  sigfigs : Nat := 0
  snaplen : Nat := kMAX_PK_SIZE
  network : Nat := 1
deriving DecidableEq, Repr

/-- The constant `kPcapHhdr`, default-initialised. -/
def kPcapHhdr : PcapFileHdr := {}

/-- Value of `sizeof(kPcapHhdr)` under `fon9_PACK(1)`: 4 + 2 + 2 + 4 + 4 + 4 + 4. -/
def kPcapHdrSize : Nat := 24

/-- Memory image of a `PcapFileHdr`: its seven fields in declaration order and host byte
order, the signed `thiszone` in two's complement. -/
def PcapFileHdr.memory (hostBigEndian : Bool) (hdr : PcapFileHdr) : List Nat :=
  hostBytes32 hostBigEndian hdr.magic_number ++ hostBytes16 hostBigEndian hdr.version_major ++
    hostBytes16 hostBigEndian hdr.version_minor ++
    hostBytes32 hostBigEndian (hdr.thiszone % 2 ^ 32).toNat ++
    hostBytes32 hostBigEndian hdr.sigfigs ++ hostBytes32 hostBigEndian hdr.snaplen ++
    hostBytes32 hostBigEndian hdr.network

/-- How the start-up code of `main` leaves the output file: the process exits with status 3
after printing the failed step `ferrFn`, or the file is open with the given content. -/
inductive OpenResult where
  | exit3 (ferrFn : String)
  | opened (file : List Nat)
deriving DecidableEq, Repr

/-- The part of `main` from `gPcapOutFile.Open` to the writing of the file header.  The
outcomes of the library calls are parameters: whether `Open` succeeds, the result of
`GetFileSize` (`none` for an error), whether `Append` succeeds; `file` is the content of the
opened file. -/
def mainOpenOutFile (env : Env) (openOk : Bool) (fileSize : Option Nat) (appendOk : Bool)
    (file : List Nat) : OpenResult :=
  if openOk then
    match fileSize with
    | none => OpenResult.exit3 "GetFileSize"
    | some size =>
      if size = 0 then
        if appendOk then
          OpenResult.opened (File.Append file (kPcapHhdr.memory env.hostBigEndian) kPcapHdrSize)
        else OpenResult.exit3 "Write.FileHead"
      else OpenResult.opened file
  else OpenResult.exit3 "Open"

/-! ## Records, frames and receive events -/

/-- The record that the end of the loop body of `OnDevice_Recv` builds from the header and the
queue left after the header. -/
def builtRec (s : Session) (pkHdr : f9epbc_RxPkHeader) (rxbuf : DcQueue) : PcapFileRec :=
  { ts_sec := u32 (CalcPkTimeStampNS s pkHdr / kDivisorNS)
    ts_xsec := u32 (CalcPkTimeStampNS s pkHdr % kDivisorNS)
    incl_len := pkHdr.PkBytes_
    orig_len := pkHdr.PkBytes_
    packet_buffer := rxbuf.take pkHdr.PkBytes_ }

/-- Two sessions agree on everything but the expected sequence number, the log and the count
of receive events. -/
def SameRecords (a b : Session) : Prop :=
  a.g1stPkTimeStampNS = b.g1stPkTimeStampNS ∧ a.g1stPkTickClkN = b.g1stPkTickClkN
    ∧ a.gLastRxNS = b.gLastRxNS ∧ a.gLastAppNS = b.gLastAppNS ∧ a.PcapCount_ = b.PcapCount_
    ∧ a.gPcapList = b.gPcapList ∧ a.gPcapOutFile = b.gPcapOutFile ∧ a.appended = b.appended
    ∧ a.clockReads = b.clockReads

/-- The bounds every record built by the parser meets: the captured length is within
`60 ≤ incl_len < 2048`, the original length equals it, the fraction is below one second, and
`packet_buffer` holds exactly `incl_len` stored bytes. -/
def RecOk (r : PcapFileRec) : Prop :=
  60 ≤ r.incl_len ∧ r.incl_len < kMAX_PK_SIZE ∧ r.orig_len = r.incl_len
    ∧ r.ts_xsec < 1000000000 ∧ r.packet_buffer.length = r.incl_len

/-- The events the device delivers to the session: bytes received (they are appended to the
unconsumed bytes of the queue before `OnDevice_Recv` runs), the timer with its cutoff in
nanoseconds, and a forced drain. -/
inductive Event where
  | recv (bytes : List Nat)
  | timer (bfns : Nat)
  | flush
deriving DecidableEq, Repr

/-- Effect of one event on the session and the receive queue. -/
def applyEvent (env : Env) (st : Session × DcQueue) : Event → Option (Session × DcQueue)
  | Event.recv bytes => OnDevice_Recv env st.1 (st.2 ++ bytes)
  | Event.timer bfns => (OnDevice_CommonTimer env bfns st.1).map (fun s1 => (s1, st.2))
  | Event.flush => some (FlushPcapRec env st.1, st.2)

/-- Effect of a sequence of events, first to last. -/
def runEvents (env : Env) : Session × DcQueue → List Event → Option (Session × DcQueue)
  | st, [] => some st
  | st, ev :: evs => (applyEvent env st ev).bind (fun st1 => runEvents env st1 evs)

/-- A complete frame on the wire of valid size and non-zero tick: sixteen header bytes that
declare `60 ≤ PkBytes_ < 2048`, followed by exactly `PkBytes_` payload bytes. -/
def ValidFrame (f : List Nat) : Prop :=
  60 ≤ (peekedHdr f).PkBytes_ ∧ (peekedHdr f).PkBytes_ < kMAX_PK_SIZE
    ∧ f.length = kPkHdrSize + (peekedHdr f).PkBytes_ ∧ (peekedHdr f).TTS_ ≠ 0

/-- The session after one iteration of the receive loop on a queue that holds the frame `f`. -/
def frameStep (env : Env) (s : Session) (f : List Nat) : Session :=
  (recvStep env s f).ses

/-- A queue content on which the receive loop stops at once: fewer than 16 bytes, or a header
of valid size with fewer than `16 + PkBytes_` bytes buffered. -/
def PartialFrame (p : DcQueue) : Prop :=
  p.length < kPkHdrSize
    ∨ (kPkHdrSize ≤ p.length ∧ 60 ≤ (peekedHdr p).PkBytes_ ∧ (peekedHdr p).PkBytes_ < kMAX_PK_SIZE
        ∧ p.length < kPkHdrSize + (peekedHdr p).PkBytes_)

/-- A stream for concrete evaluations: three complete frames with ticks 7, 3 and 9 and with
60, 61 and 62 payload bytes. -/
def sampleFrames : List (List Nat) :=
  [sampleFrame 7 60 0 1, sampleFrame 3 61 1 2, sampleFrame 9 62 2 3]

/-- The stream `sampleFrames` cut into chunks of 10, 90, 0 and 131 bytes. -/
def sampleChunks : List (List Nat) :=
  [sampleFrames.flatten.take 10, (sampleFrames.flatten.drop 10).take 90, [],
    sampleFrames.flatten.drop 100]

/-- Every record in the container and every record handed to `AppendPcapRec` so far meets
the bounds of `RecOk`. -/
def BufferOk (s : Session) : Prop :=
  (∀ r ∈ s.gPcapList, RecOk r) ∧ (∀ r ∈ s.appended, RecOk r)

/-! ## Facts about one iteration of the receive loop -/

theorem checkLost_off (env : Env) (s : Session) (pkHdr : f9epbc_RxPkHeader)
    (h : env.gIsCheckLost = false) : checkLost env s pkHdr = s := by
  simp [checkLost, h]

theorem checkLost_frame (env : Env) (s : Session) (pkHdr : f9epbc_RxPkHeader) :
    (checkLost env s pkHdr).g1stPkTimeStampNS = s.g1stPkTimeStampNS
      ∧ (checkLost env s pkHdr).g1stPkTickClkN = s.g1stPkTickClkN
      ∧ (checkLost env s pkHdr).gLastRxNS = s.gLastRxNS
      ∧ (checkLost env s pkHdr).gLastAppNS = s.gLastAppNS
      ∧ (checkLost env s pkHdr).PcapCount_ = s.PcapCount_
      ∧ (checkLost env s pkHdr).RxEvCount_ = s.RxEvCount_
      ∧ (checkLost env s pkHdr).gPcapList = s.gPcapList
      ∧ (checkLost env s pkHdr).gPcapOutFile = s.gPcapOutFile
      ∧ (checkLost env s pkHdr).appended = s.appended
      ∧ (checkLost env s pkHdr).clockReads = s.clockReads := by
  unfold checkLost
  by_cases h1 : env.gIsCheckLost = true
  · by_cases h2 : hostValue env.hostBigEndian pkHdr.Padding2b_ = s.gPkSeqNext
    · simp [h1, h2]
    · by_cases h3 : s.gPkSeqNext < hostValue env.hostBigEndian pkHdr.Padding2b_
      · by_cases h4 : s.g1stPkTimeStampNS = 0 <;> simp [h1, h2, h3, h4]
      · simp [h1, h2, h3]
  · simp [h1]

theorem recvStep_noHeader (env : Env) (s : Session) (rxbuf : DcQueue)
    (h : rxbuf.length < kPkHdrSize) :
    recvStep env s rxbuf = { branch := Branch.noHeader, ses := s, rxbuf := rxbuf } := by
  simp [recvStep, DcQueue.Peek, Nat.not_le.mpr h]

theorem recvStep_badSize (env : Env) (s : Session) (rxbuf : DcQueue)
    (h : kPkHdrSize ≤ rxbuf.length)
    (hbad : (peekedHdr rxbuf).PkBytes_ < 60 ∨ kMAX_PK_SIZE ≤ (peekedHdr rxbuf).PkBytes_) :
    recvStep env s rxbuf
      = { branch := Branch.badSize
          ses := { checkLost env s (peekedHdr rxbuf) with
            logs := (checkLost env s (peekedHdr rxbuf)).logs ++
              [LogEvent.BadPkSize (peekedHdr rxbuf).PkBytes_ rxbuf.length
                (checkLost env s (peekedHdr rxbuf)).PcapCount_
                (checkLost env s (peekedHdr rxbuf)).RxEvCount_
                (GetPkTimeStamp (checkLost env s (peekedHdr rxbuf)) (peekedHdr rxbuf))
                (rxbuf.take kPkHdrSize)] }
          rxbuf := rxbuf.drop (kPkHdrSize + (peekedHdr rxbuf).PkBytes_) } := by
  unfold peekedHdr at hbad ⊢
  simp only [recvStep, DcQueue.Peek, h, if_true, hbad, DcQueue.CalcSize, DcQueue.PopConsumed]

theorem recvStep_incomplete (env : Env) (s : Session) (rxbuf : DcQueue)
    (h : kPkHdrSize ≤ rxbuf.length)
    (hok : ¬ ((peekedHdr rxbuf).PkBytes_ < 60 ∨ kMAX_PK_SIZE ≤ (peekedHdr rxbuf).PkBytes_))
    (hshort : rxbuf.length < kPkHdrSize + (peekedHdr rxbuf).PkBytes_) :
    recvStep env s rxbuf
      = { branch := Branch.incomplete, ses := checkLost env s (peekedHdr rxbuf), rxbuf := rxbuf } := by
  unfold peekedHdr at hok hshort ⊢
  simp only [recvStep, DcQueue.Peek, h, if_true, hok, if_false, DcQueue.CalcSize, hshort]

theorem recvStep_full (env : Env) (s : Session) (rxbuf : DcQueue)
    (h : kPkHdrSize ≤ rxbuf.length)
    (hok : ¬ ((peekedHdr rxbuf).PkBytes_ < 60 ∨ kMAX_PK_SIZE ≤ (peekedHdr rxbuf).PkBytes_))
    (hfull : kPkHdrSize + (peekedHdr rxbuf).PkBytes_ ≤ rxbuf.length) :
    recvStep env s rxbuf
      = if (checkLost env s (peekedHdr rxbuf)).g1stPkTickClkN = 0 then
          buildRec
            { checkLost env s (peekedHdr rxbuf) with
              g1stPkTickClkN := (peekedHdr rxbuf).TTS_
              g1stPkTimeStampNS := u64 (env.utcNowNS (checkLost env s (peekedHdr rxbuf)).clockReads)
              clockReads := (checkLost env s (peekedHdr rxbuf)).clockReads + 1 }
            (peekedHdr rxbuf) (rxbuf.drop kPkHdrSize)
        else if (peekedHdr rxbuf).TTS_ < (checkLost env s (peekedHdr rxbuf)).g1stPkTickClkN then
          { branch := Branch.stale, ses := checkLost env s (peekedHdr rxbuf)
            rxbuf := (rxbuf.drop kPkHdrSize).drop (peekedHdr rxbuf).PkBytes_ }
        else
          buildRec (checkLost env s (peekedHdr rxbuf)) (peekedHdr rxbuf) (rxbuf.drop kPkHdrSize) := by
  unfold peekedHdr at hok hfull ⊢
  simp only [recvStep, DcQueue.Peek, h, if_true, hok, if_false, DcQueue.CalcSize,
    Nat.not_lt.mpr hfull, DcQueue.PopConsumed]

theorem buildRec_branch (s : Session) (pkHdr : f9epbc_RxPkHeader) (rxbuf : DcQueue) :
    (buildRec s pkHdr rxbuf).branch = Branch.accepted
      ∧ (buildRec s pkHdr rxbuf).rxbuf = rxbuf.drop pkHdr.PkBytes_ := by
  simp [buildRec, DcQueue.Read]

/-- Every iteration that does not end the loop removes at least `kPkHdrSize` bytes. -/
theorem recvStep_consumes (env : Env) (s : Session) (rxbuf : DcQueue)
    (hn : (recvStep env s rxbuf).branch ≠ Branch.noHeader)
    (hi : (recvStep env s rxbuf).branch ≠ Branch.incomplete) :
    (recvStep env s rxbuf).rxbuf.length + kPkHdrSize ≤ rxbuf.length := by
  by_cases h : kPkHdrSize ≤ rxbuf.length
  · by_cases hbad : (peekedHdr rxbuf).PkBytes_ < 60 ∨ kMAX_PK_SIZE ≤ (peekedHdr rxbuf).PkBytes_
    · rw [recvStep_badSize env s rxbuf h hbad]
      simp only [List.length_drop]
      omega
    · by_cases hfull : kPkHdrSize + (peekedHdr rxbuf).PkBytes_ ≤ rxbuf.length
      · rw [recvStep_full env s rxbuf h hbad hfull]
        split_ifs
        · rw [(buildRec_branch _ _ _).2]
          simp only [List.length_drop]
          omega
        · simp only [List.length_drop]
          omega
        · rw [(buildRec_branch _ _ _).2]
          simp only [List.length_drop]
          omega
      · rw [recvStep_incomplete env s rxbuf h hbad (Nat.not_le.mp hfull)] at hi
        exact absurd rfl hi
  · rw [recvStep_noHeader env s rxbuf (Nat.not_le.mp h)] at hn
    exact absurd rfl hn

/-- The receive loop returns whenever the bound exceeds the number of buffered bytes, and the
result does not depend on the bound. -/
theorem recvLoop_fuel (env : Env) :
    ∀ (fuel : Nat) (s : Session) (rxbuf : DcQueue), rxbuf.length < fuel →
      ∃ r, recvLoop env fuel s rxbuf = some r ∧
        ∀ fuel2, rxbuf.length < fuel2 → recvLoop env fuel2 s rxbuf = some r := by
  intro fuel
  induction fuel with
  | zero => intro s rxbuf h; omega
  | succ n ih =>
    intro s rxbuf h
    by_cases hn : (recvStep env s rxbuf).branch = Branch.noHeader
    · refine ⟨((recvStep env s rxbuf).ses, (recvStep env s rxbuf).rxbuf), ?_, ?_⟩
      · simp [recvLoop, hn]
      · intro fuel2 h2
        obtain ⟨m, rfl⟩ : ∃ m, fuel2 = m + 1 := ⟨fuel2 - 1, by omega⟩
        simp [recvLoop, hn]
    · by_cases hi : (recvStep env s rxbuf).branch = Branch.incomplete
      · refine ⟨((recvStep env s rxbuf).ses, (recvStep env s rxbuf).rxbuf), ?_, ?_⟩
        · simp [recvLoop, hi]
        · intro fuel2 h2
          obtain ⟨m, rfl⟩ : ∃ m, fuel2 = m + 1 := ⟨fuel2 - 1, by omega⟩
          simp [recvLoop, hi]
      · have hc := recvStep_consumes env s rxbuf hn hi
        have hk : kPkHdrSize = 16 := rfl
        have hstep : ∀ k, recvLoop env (k + 1) s rxbuf
            = recvLoop env k (recvStep env s rxbuf).ses (recvStep env s rxbuf).rxbuf := by
          intro k
          cases hb : (recvStep env s rxbuf).branch <;> simp_all [recvLoop]
        obtain ⟨r, hr, hr2⟩ := ih (recvStep env s rxbuf).ses (recvStep env s rxbuf).rxbuf (by omega)
        refine ⟨r, ?_, ?_⟩
        · rw [hstep]; exact hr
        · intro fuel2 h2
          obtain ⟨m, rfl⟩ : ∃ m, fuel2 = m + 1 := ⟨fuel2 - 1, by omega⟩
          rw [hstep]
          exact hr2 m (by omega)

/-- One iteration leaves a non-zero anchor tick, and the anchor wall-clock with it, unchanged. -/
theorem recvStep_anchor_fixed (env : Env) (s : Session) (rxbuf : DcQueue)
    (hset : s.g1stPkTickClkN ≠ 0) :
    (recvStep env s rxbuf).ses.g1stPkTickClkN = s.g1stPkTickClkN
      ∧ (recvStep env s rxbuf).ses.g1stPkTimeStampNS = s.g1stPkTimeStampNS := by
  have hc := checkLost_frame env s (peekedHdr rxbuf)
  by_cases h : kPkHdrSize ≤ rxbuf.length
  · by_cases hbad : (peekedHdr rxbuf).PkBytes_ < 60 ∨ kMAX_PK_SIZE ≤ (peekedHdr rxbuf).PkBytes_
    · rw [recvStep_badSize env s rxbuf h hbad]
      exact ⟨hc.2.1, hc.1⟩
    · by_cases hfull : kPkHdrSize + (peekedHdr rxbuf).PkBytes_ ≤ rxbuf.length
      · rw [recvStep_full env s rxbuf h hbad hfull]
        have hne : ¬ (checkLost env s (peekedHdr rxbuf)).g1stPkTickClkN = 0 := by
          rw [hc.2.1]; exact hset
        rw [if_neg hne]
        split_ifs
        · exact ⟨hc.2.1, hc.1⟩
        · exact ⟨hc.2.1, hc.1⟩
      · rw [recvStep_incomplete env s rxbuf h hbad (Nat.not_le.mp hfull)]
        exact ⟨hc.2.1, hc.1⟩
  · rw [recvStep_noHeader env s rxbuf (Nat.not_le.mp h)]
    exact ⟨rfl, rfl⟩

/-- The receive loop leaves a non-zero anchor tick, and the anchor wall-clock with it, unchanged. -/
theorem recvLoop_anchor_fixed (env : Env) :
    ∀ (fuel : Nat) (s : Session) (rxbuf : DcQueue) (r : Session × DcQueue),
      s.g1stPkTickClkN ≠ 0 → recvLoop env fuel s rxbuf = some r →
      r.1.g1stPkTickClkN = s.g1stPkTickClkN ∧ r.1.g1stPkTimeStampNS = s.g1stPkTimeStampNS := by
  intro fuel
  induction fuel with
  | zero => intro s rxbuf r _ h; simp [recvLoop] at h
  | succ n ih =>
    intro s rxbuf r hset h
    have hstep := recvStep_anchor_fixed env s rxbuf hset
    have hnext : (recvStep env s rxbuf).ses.g1stPkTickClkN ≠ 0 := by rw [hstep.1]; exact hset
    cases hb : (recvStep env s rxbuf).branch <;> simp only [recvLoop, hb] at h
    · cases h; exact hstep
    · have := ih _ _ r hnext h
      exact ⟨this.1.trans hstep.1, this.2.trans hstep.2⟩
    · cases h; exact hstep
    · have := ih _ _ r hnext h
      exact ⟨this.1.trans hstep.1, this.2.trans hstep.2⟩
    · have := ih _ _ r hnext h
      exact ⟨this.1.trans hstep.1, this.2.trans hstep.2⟩

/-- The method `OnDevice_Recv` returns, and a non-zero anchor tick and the anchor wall-clock
are the same afterwards, for every buffer content. -/
theorem OnDevice_Recv_anchor_fixed (env : Env) (s : Session) (rxbuf : DcQueue)
    (hset : s.g1stPkTickClkN ≠ 0) :
    ∃ r, OnDevice_Recv env s rxbuf = some r
      ∧ r.1.g1stPkTickClkN = s.g1stPkTickClkN
      ∧ r.1.g1stPkTimeStampNS = s.g1stPkTimeStampNS := by
  obtain ⟨r, hr, -⟩ := recvLoop_fuel env (rxbuf.length + 1)
    { s with RxEvCount_ := u64 (s.RxEvCount_ + 1) } rxbuf (Nat.lt_succ_self _)
  exact ⟨r, hr, recvLoop_anchor_fixed env _ { s with RxEvCount_ := u64 (s.RxEvCount_ + 1) } rxbuf r
    hset hr⟩

/-- An iteration that ends with `continue`, or that falls through to the end of the body,
is followed by the next iteration on the session and the queue it leaves. -/
theorem recvLoop_continue (env : Env) (fuel : Nat) (s : Session) (rxbuf : DcQueue)
    (hn : (recvStep env s rxbuf).branch ≠ Branch.noHeader)
    (hi : (recvStep env s rxbuf).branch ≠ Branch.incomplete) :
    recvLoop env (fuel + 1) s rxbuf
      = recvLoop env fuel (recvStep env s rxbuf).ses (recvStep env s rxbuf).rxbuf := by
  cases hb : (recvStep env s rxbuf).branch <;> simp_all [recvLoop]

/-- The sequence number read from a peeked header is a 16-bit value. -/
theorem peekedHdr_pkseq_lt (hostBigEndian : Bool) (rxbuf : DcQueue) :
    hostValue hostBigEndian (peekedHdr rxbuf).Padding2b_ < 2 ^ 16 := by
  unfold peekedHdr AdjustEndian
  simp only
  generalize (List.take kPkHdrSize rxbuf).drop 14 = l
  match l with
  | [] => cases hostBigEndian <;> simp [hostValue, GetLittleEndian]
  | [a] => cases hostBigEndian <;> simp [hostValue, GetLittleEndian] <;> omega
  | a :: b :: t => cases hostBigEndian <;> simp [hostValue, GetLittleEndian] <;> omega

/-- Whatever path an iteration takes after it has peeked a header, the expected sequence
number it leaves is the one the sequence check computed. -/
theorem recvStep_gPkSeqNext (env : Env) (s : Session) (rxbuf : DcQueue)
    (h : kPkHdrSize ≤ rxbuf.length) :
    (recvStep env s rxbuf).ses.gPkSeqNext = (checkLost env s (peekedHdr rxbuf)).gPkSeqNext := by
  by_cases hbad : (peekedHdr rxbuf).PkBytes_ < 60 ∨ kMAX_PK_SIZE ≤ (peekedHdr rxbuf).PkBytes_
  · rw [recvStep_badSize env s rxbuf h hbad]
  · by_cases hfull : kPkHdrSize + (peekedHdr rxbuf).PkBytes_ ≤ rxbuf.length
    · rw [recvStep_full env s rxbuf h hbad hfull]
      split_ifs <;> rfl
    · rw [recvStep_incomplete env s rxbuf h hbad (Nat.not_le.mp hfull)]

/-! ## Sessions that agree on the captured records -/

theorem SameRecords.refl (a : Session) : SameRecords a a :=
  ⟨rfl, rfl, rfl, rfl, rfl, rfl, rfl, rfl, rfl⟩

theorem SameRecords.symm {a b : Session} (h : SameRecords a b) : SameRecords b a := by
  obtain ⟨h1, h2, h3, h4, h5, h6, h7, h8, h9⟩ := h
  exact ⟨h1.symm, h2.symm, h3.symm, h4.symm, h5.symm, h6.symm, h7.symm, h8.symm, h9.symm⟩

theorem SameRecords.trans {a b c : Session} (h : SameRecords a b) (k : SameRecords b c) :
    SameRecords a c := by
  obtain ⟨h1, h2, h3, h4, h5, h6, h7, h8, h9⟩ := h
  obtain ⟨k1, k2, k3, k4, k5, k6, k7, k8, k9⟩ := k
  exact ⟨h1.trans k1, h2.trans k2, h3.trans k3, h4.trans k4, h5.trans k5, h6.trans k6,
    h7.trans k7, h8.trans k8, h9.trans k9⟩

/-- The sequence check changes nothing but the expected sequence number and the log. -/
theorem checkLost_SameRecords (env : Env) (s : Session) (pkHdr : f9epbc_RxPkHeader) :
    SameRecords (checkLost env s pkHdr) s := by
  obtain ⟨h1, h2, h3, h4, h5, -, h7, h8, h9, h10⟩ := checkLost_frame env s pkHdr
  exact ⟨h1, h2, h3, h4, h5, h7, h8, h9, h10⟩

/-- The end of the loop body acts alike on sessions that agree on the captured records. -/
theorem buildRec_SameRecords (a b : Session) (pkHdr : f9epbc_RxPkHeader) (rxbuf : DcQueue)
    (h : SameRecords a b) :
    (buildRec a pkHdr rxbuf).branch = (buildRec b pkHdr rxbuf).branch
      ∧ (buildRec a pkHdr rxbuf).rxbuf = (buildRec b pkHdr rxbuf).rxbuf
      ∧ SameRecords (buildRec a pkHdr rxbuf).ses (buildRec b pkHdr rxbuf).ses := by
  obtain ⟨h1, h2, h3, h4, h5, h6, h7, h8, h9⟩ := h
  have hts : CalcPkTimeStampNS a pkHdr = CalcPkTimeStampNS b pkHdr := by
    simp only [CalcPkTimeStampNS, h1, h2]
  refine ⟨rfl, rfl, ?_⟩
  simp only [buildRec, SameRecords, hts, h1, h2, h4, h5, h6, h7, h8, h9, and_self]

/-- An iteration never changes the count of receive events. -/
theorem recvStep_RxEvCount (env : Env) (s : Session) (rxbuf : DcQueue) :
    (recvStep env s rxbuf).ses.RxEvCount_ = s.RxEvCount_ := by
  have hc := (checkLost_frame env s (peekedHdr rxbuf)).2.2.2.2.2.1
  by_cases h : kPkHdrSize ≤ rxbuf.length
  · by_cases hbad : (peekedHdr rxbuf).PkBytes_ < 60 ∨ kMAX_PK_SIZE ≤ (peekedHdr rxbuf).PkBytes_
    · rw [recvStep_badSize env s rxbuf h hbad]; exact hc
    · by_cases hfull : kPkHdrSize + (peekedHdr rxbuf).PkBytes_ ≤ rxbuf.length
      · rw [recvStep_full env s rxbuf h hbad hfull]
        split_ifs <;> exact hc
      · rw [recvStep_incomplete env s rxbuf h hbad (Nat.not_le.mp hfull)]; exact hc
  · rw [recvStep_noHeader env s rxbuf (Nat.not_le.mp h)]

/-- One iteration on the same queue, from sessions that agree on the captured records and
under environments with the same clock, takes the same path, leaves the same queue and leaves
sessions that agree on the captured records; the loss-checking flag and the byte order of the
host have no influence. -/
theorem recvStep_SameRecords (env1 env2 : Env) (hclk : env1.utcNowNS = env2.utcNowNS)
    (s1 s2 : Session) (h : SameRecords s1 s2) (rxbuf : DcQueue) :
    (recvStep env1 s1 rxbuf).branch = (recvStep env2 s2 rxbuf).branch
      ∧ (recvStep env1 s1 rxbuf).rxbuf = (recvStep env2 s2 rxbuf).rxbuf
      ∧ SameRecords (recvStep env1 s1 rxbuf).ses (recvStep env2 s2 rxbuf).ses := by
  have hc : SameRecords (checkLost env1 s1 (peekedHdr rxbuf)) (checkLost env2 s2 (peekedHdr rxbuf)) :=
    ((checkLost_SameRecords env1 s1 _).trans h).trans (checkLost_SameRecords env2 s2 _).symm
  by_cases hp : kPkHdrSize ≤ rxbuf.length
  · by_cases hbad : (peekedHdr rxbuf).PkBytes_ < 60 ∨ kMAX_PK_SIZE ≤ (peekedHdr rxbuf).PkBytes_
    · rw [recvStep_badSize env1 s1 rxbuf hp hbad, recvStep_badSize env2 s2 rxbuf hp hbad]
      exact ⟨rfl, rfl, hc⟩
    · by_cases hfull : kPkHdrSize + (peekedHdr rxbuf).PkBytes_ ≤ rxbuf.length
      · rw [recvStep_full env1 s1 rxbuf hp hbad hfull, recvStep_full env2 s2 rxbuf hp hbad hfull]
        have htick := hc.2.1
        by_cases h0 : (checkLost env2 s2 (peekedHdr rxbuf)).g1stPkTickClkN = 0
        · have h0a : (checkLost env1 s1 (peekedHdr rxbuf)).g1stPkTickClkN = 0 := htick.trans h0
          rw [if_pos h0, if_pos h0a]
          apply buildRec_SameRecords
          obtain ⟨c1, c2, c3, c4, c5, c6, c7, c8, c9⟩ := hc
          exact ⟨by simp only [hclk, c9], rfl, c3, c4, c5, c6, c7, c8, by simp only [c9]⟩
        · have h0a : ¬ (checkLost env1 s1 (peekedHdr rxbuf)).g1stPkTickClkN = 0 := by
            rw [htick]; exact h0
          rw [if_neg h0, if_neg h0a, htick]
          by_cases hst : (peekedHdr rxbuf).TTS_ < (checkLost env2 s2 (peekedHdr rxbuf)).g1stPkTickClkN
          · rw [if_pos hst, if_pos hst]
            exact ⟨rfl, rfl, hc⟩
          · rw [if_neg hst, if_neg hst]
            exact buildRec_SameRecords _ _ _ _ hc
      · rw [recvStep_incomplete env1 s1 rxbuf hp hbad (Nat.not_le.mp hfull),
          recvStep_incomplete env2 s2 rxbuf hp hbad (Nat.not_le.mp hfull)]
        exact ⟨rfl, rfl, hc⟩
  · rw [recvStep_noHeader env1 s1 rxbuf (Nat.not_le.mp hp),
      recvStep_noHeader env2 s2 rxbuf (Nat.not_le.mp hp)]
    exact ⟨rfl, rfl, h⟩

/-- The receive loop, run on the same queue from sessions that agree on the captured records
and under environments with the same clock, returns the same queue and sessions that agree on
the captured records. -/
theorem recvLoop_SameRecords (env1 env2 : Env) (hclk : env1.utcNowNS = env2.utcNowNS) :
    ∀ (fuel : Nat) (s1 s2 : Session) (rxbuf : DcQueue) (r1 : Session × DcQueue),
      SameRecords s1 s2 → recvLoop env1 fuel s1 rxbuf = some r1 →
      ∃ r2, recvLoop env2 fuel s2 rxbuf = some r2 ∧ r1.2 = r2.2 ∧ SameRecords r1.1 r2.1 := by
  intro fuel
  induction fuel with
  | zero => intro s1 s2 rxbuf r1 _ h; simp [recvLoop] at h
  | succ n ih =>
    intro s1 s2 rxbuf r1 hs h
    obtain ⟨hb, hq, hr⟩ := recvStep_SameRecords env1 env2 hclk s1 s2 hs rxbuf
    cases hb1 : (recvStep env1 s1 rxbuf).branch <;>
      have hb2 := hb1 ▸ hb.symm <;>
      simp only [recvLoop, hb1, hb2] at h ⊢
    · cases h; exact ⟨_, rfl, hq, hr⟩
    · rw [← hq]; exact ih _ _ _ r1 hr h
    · cases h; exact ⟨_, rfl, hq, hr⟩
    · rw [← hq]; exact ih _ _ _ r1 hr h
    · rw [← hq]; exact ih _ _ _ r1 hr h

/-- The receive loop never changes the count of receive events. -/
theorem recvLoop_RxEvCount (env : Env) :
    ∀ (fuel : Nat) (s : Session) (rxbuf : DcQueue) (r : Session × DcQueue),
      recvLoop env fuel s rxbuf = some r → r.1.RxEvCount_ = s.RxEvCount_ := by
  intro fuel
  induction fuel with
  | zero => intro s rxbuf r h; simp [recvLoop] at h
  | succ n ih =>
    intro s rxbuf r h
    have hstep := recvStep_RxEvCount env s rxbuf
    cases hb : (recvStep env s rxbuf).branch <;> simp only [recvLoop, hb] at h
    · cases h; exact hstep
    · exact (ih _ _ r h).trans hstep
    · cases h; exact hstep
    · exact (ih _ _ r h).trans hstep
    · exact (ih _ _ r h).trans hstep

/-- An iteration that finds no header or an incomplete frame ends the loop, and the loop
returns the session and the queue that iteration left. -/
theorem recvLoop_stop (env : Env) (fuel : Nat) (s : Session) (rxbuf : DcQueue)
    (h : (recvStep env s rxbuf).branch = Branch.noHeader
      ∨ (recvStep env s rxbuf).branch = Branch.incomplete) :
    recvLoop env (fuel + 1) s rxbuf
      = some ((recvStep env s rxbuf).ses, (recvStep env s rxbuf).rxbuf) := by
  rcases h with h | h <;> simp [recvLoop, h]

/-! ## Facts about accepted frames -/

/-- The end of the loop body inserts the record `builtRec` and nothing else. -/
theorem buildRec_eq (s : Session) (pkHdr : f9epbc_RxPkHeader) (rxbuf : DcQueue) :
    buildRec s pkHdr rxbuf
      = { branch := Branch.accepted
          ses := { s with
            gLastRxNS := CalcPkTimeStampNS s pkHdr
            gPcapList := PcapListImpl.insert (builtRec s pkHdr rxbuf) s.gPcapList
            PcapCount_ := u64 (s.PcapCount_ + 1) }
          rxbuf := rxbuf.drop pkHdr.PkBytes_ } := rfl

/-- An iteration that accepts a frame has peeked a header of valid size with the frame fully
buffered, and it is the end of the loop body run on a session `t` that differs from the one
before at most in the expected sequence number, the log and a freshly set anchor. -/
theorem recvStep_accepted (env : Env) (s : Session) (rxbuf : DcQueue)
    (hacc : (recvStep env s rxbuf).branch = Branch.accepted) :
    kPkHdrSize ≤ rxbuf.length ∧ 60 ≤ (peekedHdr rxbuf).PkBytes_
      ∧ (peekedHdr rxbuf).PkBytes_ < kMAX_PK_SIZE
      ∧ kPkHdrSize + (peekedHdr rxbuf).PkBytes_ ≤ rxbuf.length
      ∧ ∃ t : Session, recvStep env s rxbuf = buildRec t (peekedHdr rxbuf) (rxbuf.drop kPkHdrSize)
          ∧ t.gPcapList = s.gPcapList ∧ t.PcapCount_ = s.PcapCount_ ∧ t.appended = s.appended
          ∧ t.gPcapOutFile = s.gPcapOutFile ∧ t.gLastAppNS = s.gLastAppNS := by
  have hc := checkLost_frame env s (peekedHdr rxbuf)
  by_cases hp : kPkHdrSize ≤ rxbuf.length
  · by_cases hbad : (peekedHdr rxbuf).PkBytes_ < 60 ∨ kMAX_PK_SIZE ≤ (peekedHdr rxbuf).PkBytes_
    · rw [recvStep_badSize env s rxbuf hp hbad] at hacc
      cases hacc
    · by_cases hfull : kPkHdrSize + (peekedHdr rxbuf).PkBytes_ ≤ rxbuf.length
      · refine ⟨hp, by omega, by omega, hfull, ?_⟩
        rw [recvStep_full env s rxbuf hp hbad hfull] at hacc ⊢
        by_cases h0 : (checkLost env s (peekedHdr rxbuf)).g1stPkTickClkN = 0
        · rw [if_pos h0]
          exact ⟨_, rfl, hc.2.2.2.2.2.2.1, hc.2.2.2.2.1, hc.2.2.2.2.2.2.2.2.1,
            hc.2.2.2.2.2.2.2.1, hc.2.2.2.1⟩
        · rw [if_neg h0] at hacc ⊢
          by_cases hst : (peekedHdr rxbuf).TTS_ < (checkLost env s (peekedHdr rxbuf)).g1stPkTickClkN
          · rw [if_pos hst] at hacc
            cases hacc
          · rw [if_neg hst]
            exact ⟨_, rfl, hc.2.2.2.2.2.2.1, hc.2.2.2.2.1, hc.2.2.2.2.2.2.2.2.1,
              hc.2.2.2.2.2.2.2.1, hc.2.2.2.1⟩
      · rw [recvStep_incomplete env s rxbuf hp hbad (Nat.not_le.mp hfull)] at hacc
        cases hacc
  · rw [recvStep_noHeader env s rxbuf (Nat.not_le.mp hp)] at hacc
    cases hacc

/-- An iteration that does not accept a frame leaves the container, the counters of records,
the anchor and the file state as they were. -/
theorem recvStep_not_accepted (env : Env) (s : Session) (rxbuf : DcQueue)
    (hacc : (recvStep env s rxbuf).branch ≠ Branch.accepted) :
    SameRecords (recvStep env s rxbuf).ses s := by
  have hc := checkLost_SameRecords env s (peekedHdr rxbuf)
  by_cases hp : kPkHdrSize ≤ rxbuf.length
  · by_cases hbad : (peekedHdr rxbuf).PkBytes_ < 60 ∨ kMAX_PK_SIZE ≤ (peekedHdr rxbuf).PkBytes_
    · rw [recvStep_badSize env s rxbuf hp hbad]
      exact hc
    · by_cases hfull : kPkHdrSize + (peekedHdr rxbuf).PkBytes_ ≤ rxbuf.length
      · rw [recvStep_full env s rxbuf hp hbad hfull] at hacc ⊢
        split_ifs at hacc ⊢
        · exact absurd (buildRec_branch _ _ _).1 hacc
        · exact hc
        · exact absurd (buildRec_branch _ _ _).1 hacc
      · rw [recvStep_incomplete env s rxbuf hp hbad (Nat.not_le.mp hfull)]
        exact hc
  · rw [recvStep_noHeader env s rxbuf (Nat.not_le.mp hp)]
    exact SameRecords.refl s

/-- The record built from a header of valid size and a queue that holds the whole payload
meets the bounds of `RecOk`. -/
theorem builtRec_RecOk (t : Session) (pkHdr : f9epbc_RxPkHeader) (rxbuf : DcQueue)
    (h60 : 60 ≤ pkHdr.PkBytes_) (hmax : pkHdr.PkBytes_ < kMAX_PK_SIZE)
    (hfull : pkHdr.PkBytes_ ≤ rxbuf.length) : RecOk (builtRec t pkHdr rxbuf) := by
  refine ⟨h60, hmax, rfl, ?_, ?_⟩
  · show u32 (CalcPkTimeStampNS t pkHdr % kDivisorNS) < 1000000000
    have : CalcPkTimeStampNS t pkHdr % kDivisorNS < 1000000000 := Nat.mod_lt _ (by decide)
    unfold u32
    omega
  · show (rxbuf.take pkHdr.PkBytes_).length = pkHdr.PkBytes_
    rw [List.length_take]
    omega

/-! ## Facts about the ordering key, the container and the drains -/

theorem PcapFileRecHdr.lt_iff (a b : PcapFileRecHdr) :
    a.lt b = true ↔ a.ts_sec < b.ts_sec ∨ (a.ts_sec = b.ts_sec ∧ a.ts_xsec < b.ts_xsec) := by
  unfold PcapFileRecHdr.lt
  by_cases e : a.ts_sec = b.ts_sec
  · rw [if_pos e, decide_eq_true_eq]
    omega
  · rw [if_neg e, decide_eq_true_eq]
    omega

theorem PcapFileRecHdr.lt_eq_false_iff (a b : PcapFileRecHdr) :
    a.lt b = false ↔ b.ts_sec < a.ts_sec ∨ (a.ts_sec = b.ts_sec ∧ b.ts_xsec ≤ a.ts_xsec) := by
  rw [← Bool.not_eq_true, PcapFileRecHdr.lt_iff]
  omega

theorem PcapFileRecHdr.lt_asymm (a b : PcapFileRecHdr) (h : a.lt b = true) : b.lt a = false := by
  rw [PcapFileRecHdr.lt_iff] at h
  rw [PcapFileRecHdr.lt_eq_false_iff]
  omega

theorem PcapFileRecHdr.lt_of_lt_of_not_lt (a b c : PcapFileRecHdr) (h1 : a.lt b = true)
    (h2 : c.lt b = false) : a.lt c = true := by
  rw [PcapFileRecHdr.lt_iff] at h1 ⊢
  rw [PcapFileRecHdr.lt_eq_false_iff] at h2
  omega

theorem PcapFileRecHdr.not_lt_trans (a b c : PcapFileRecHdr) (h1 : b.lt a = false)
    (h2 : c.lt b = false) : c.lt a = false := by
  rw [PcapFileRecHdr.lt_eq_false_iff] at h1 h2 ⊢
  omega

theorem PcapListImpl.mem_insert (prec x : PcapFileRec) (l : List PcapFileRec) :
    x ∈ PcapListImpl.insert prec l ↔ x = prec ∨ x ∈ l := by
  induction l with
  | nil => simp [PcapListImpl.insert]
  | cons e es ih =>
    unfold PcapListImpl.insert
    split_ifs
    · simp
    · simp only [List.mem_cons, ih]
      tauto

theorem PcapListImpl.insert_perm (prec : PcapFileRec) (l : List PcapFileRec) :
    (PcapListImpl.insert prec l).Perm (prec :: l) := by
  induction l with
  | nil => simp [PcapListImpl.insert]
  | cons e es ih =>
    unfold PcapListImpl.insert
    split_ifs
    · exact List.Perm.refl _
    · exact (List.Perm.cons e ih).trans (List.Perm.swap prec e es)

/-- The container stays in non-decreasing key order under `insert`. -/
theorem PcapListImpl.insert_nonDecreasing (prec : PcapFileRec) (l : List PcapFileRec)
    (h : NonDecreasing l) : NonDecreasing (PcapListImpl.insert prec l) := by
  unfold NonDecreasing at h ⊢
  induction l with
  | nil => simp [PcapListImpl.insert]
  | cons e es ih =>
    rw [List.pairwise_cons] at h
    unfold PcapListImpl.insert
    split_ifs with hlt
    · refine List.pairwise_cons.mpr ⟨?_, List.pairwise_cons.mpr h⟩
      intro x hx
      rcases List.mem_cons.mp hx with rfl | hx
      · exact PcapFileRecHdr.lt_asymm _ _ hlt
      · have h1 : PcapFileRecHdr.lt x.toPcapFileRecHdr e.toPcapFileRecHdr = false := h.1 x hx
        exact PcapFileRecHdr.lt_asymm _ _
          (PcapFileRecHdr.lt_of_lt_of_not_lt prec.toPcapFileRecHdr e.toPcapFileRecHdr
            x.toPcapFileRecHdr hlt h1)
    · refine List.pairwise_cons.mpr ⟨?_, ih h.2⟩
      intro x hx
      rcases (PcapListImpl.mem_insert prec x es).mp hx with rfl | hx
      · simpa using hlt
      · exact h.1 x hx

/-- The fields that a run of `AppendPcapRec` over a list of records changes and keeps. -/
theorem foldl_AppendPcapRec (env : Env) (l : List PcapFileRec) :
    ∀ s : Session,
      (l.foldl (AppendPcapRec env) s).appended = s.appended ++ l
        ∧ (l.foldl (AppendPcapRec env) s).gPcapList = s.gPcapList
        ∧ (l.foldl (AppendPcapRec env) s).g1stPkTickClkN = s.g1stPkTickClkN
        ∧ (l.foldl (AppendPcapRec env) s).g1stPkTimeStampNS = s.g1stPkTimeStampNS
        ∧ (l.foldl (AppendPcapRec env) s).gPcapOutFile
            = s.gPcapOutFile ++
              (l.map (fun r => File.Append [] (r.memory env.hostBigEndian)
                (kRecHdrSize + r.incl_len))).flatten := by
  induction l with
  | nil => intro s; simp
  | cons r rest ih =>
    intro s
    obtain ⟨h1, h2, h3, h4, h5⟩ := ih (AppendPcapRec env s r)
    simp only [List.foldl_cons, h1, h2, h3, h4, h5]
    simp [AppendPcapRec, File.Append]

/-- The periodic drain loop returns whenever the bound exceeds the number of queued records:
it appends the longest prefix of the container whose records are not greater than the cutoff
and leaves the rest. -/
theorem timerLoop_eq (env : Env) (cutoff : PcapFileRecHdr) :
    ∀ (fuel : Nat) (s : Session), s.gPcapList.length < fuel →
      timerLoop env cutoff fuel s
        = some ((s.gPcapList.takeWhile (fun r => !cutoff.lt r.toPcapFileRecHdr)).foldl
            (AppendPcapRec env)
            { s with gPcapList :=
                s.gPcapList.dropWhile (fun r => !cutoff.lt r.toPcapFileRecHdr) }) := by
  intro fuel
  induction fuel with
  | zero => intro s h; omega
  | succ n ih =>
    intro s h
    cases hl : s.gPcapList with
    | nil =>
      have hs : s = { s with gPcapList := [] } := by cases s; simp_all
      simp only [timerLoop, timerStep, hl, List.takeWhile_nil, List.dropWhile_nil, List.foldl_nil]
      rw [← hs]
    | cons r rest =>
      have hs : s = { s with gPcapList := r :: rest } := by cases s; simp_all
      by_cases hlt : cutoff.lt r.toPcapFileRecHdr = true
      · simp only [timerLoop, timerStep, hl, hlt, if_true, List.takeWhile_cons, List.dropWhile_cons,
          Bool.not_true, List.foldl_nil]
        simp only [Bool.false_eq_true, if_false, List.foldl_nil]
        rw [← hs]
      · have hlt2 : cutoff.lt r.toPcapFileRecHdr = false := by simpa using hlt
        simp only [timerLoop, timerStep, hl, hlt2, Bool.false_eq_true, if_false,
          List.takeWhile_cons, List.dropWhile_cons, Bool.not_false, if_true, List.foldl_cons]
        rw [ih (AppendPcapRec env { s with gPcapList := rest } r)
          (by rw [hl] at h; simp [AppendPcapRec] at h ⊢; omega)]
        rfl

/-- The periodic drain returns; it moves a prefix `out` of the container to the end of the
appended records, every record of `out` is not greater than the cutoff, and the record left at
the head of the container, if any, is greater than the cutoff. -/
theorem OnDevice_CommonTimer_eq (env : Env) (bfns : Nat) (s : Session) :
    ∃ s1 out, OnDevice_CommonTimer env bfns s = some s1
      ∧ s1.appended = s.appended ++ out
      ∧ out ++ s1.gPcapList = s.gPcapList
      ∧ (∀ r ∈ out, (flushBf bfns).lt r.toPcapFileRecHdr = false)
      ∧ (∀ r rest, s1.gPcapList = r :: rest → (flushBf bfns).lt r.toPcapFileRecHdr = true)
      ∧ s1.g1stPkTickClkN = s.g1stPkTickClkN
      ∧ s1.g1stPkTimeStampNS = s.g1stPkTimeStampNS := by
  obtain ⟨h1, h2, h3, h4, -⟩ := foldl_AppendPcapRec env
    (s.gPcapList.takeWhile (fun r => !(flushBf bfns).lt r.toPcapFileRecHdr))
    { s with gPcapList :=
        s.gPcapList.dropWhile (fun r => !(flushBf bfns).lt r.toPcapFileRecHdr) }
  refine ⟨_, s.gPcapList.takeWhile (fun r => !(flushBf bfns).lt r.toPcapFileRecHdr),
    timerLoop_eq env (flushBf bfns) _ s (Nat.lt_succ_self _), h1, ?_, ?_, ?_, h3, h4⟩
  · rw [h2]
    exact List.takeWhile_append_dropWhile _ _
  · intro r hr
    simpa using List.mem_takeWhile_imp hr
  · intro r rest hrest
    rw [h2] at hrest
    have hne : s.gPcapList.dropWhile (fun r => !(flushBf bfns).lt r.toPcapFileRecHdr) ≠ [] := by
      rw [show s.gPcapList.dropWhile (fun r => !(flushBf bfns).lt r.toPcapFileRecHdr) = r :: rest
        from hrest]
      exact List.cons_ne_nil _ _
    have := List.head_dropWhile_not (fun r => !(flushBf bfns).lt r.toPcapFileRecHdr)
      s.gPcapList hne
    simp only [show s.gPcapList.dropWhile (fun r => !(flushBf bfns).lt r.toPcapFileRecHdr)
      = r :: rest from hrest, List.head_cons] at this
    simpa using this

/-- Moving a prefix of the container to the end of the appended records keeps `OrderInv`. -/
theorem OrderInv_move (s s1 : Session) (out : List PcapFileRec) (h : OrderInv s)
    (happ : s1.appended = s.appended ++ out) (hbuf : out ++ s1.gPcapList = s.gPcapList) :
    OrderInv s1 := by
  obtain ⟨hb, ha, hc⟩ := h
  unfold OrderInv NonDecreasing at *
  rw [← hbuf, List.pairwise_append] at hb
  rw [happ]
  refine ⟨hb.2.1, List.pairwise_append.mpr ⟨ha, hb.1, ?_⟩, ?_⟩
  · intro a ha2 b hb2
    exact hc a ha2 b (by rw [← hbuf]; exact List.mem_append_left _ hb2)
  · intro a ha2 b hb2
    rcases List.mem_append.mp ha2 with h1 | h1
    · exact hc a h1 b (by rw [← hbuf]; exact List.mem_append_right _ hb2)
    · exact hb.2.2 a h1 b hb2

/-- Every operation keeps `OrderInv`, provided an inserted record is not less than any record
already appended. -/
theorem applyOp_OrderInv (env : Env) (s : Session) (op : Op) (h : OrderInv s)
    (hin : ∀ prec, op = Op.insert prec → ∀ a ∈ s.appended, prec.lt a = false) :
    ∃ s1, applyOp env s op = some s1 ∧ OrderInv s1 := by
  cases op with
  | insert prec =>
    refine ⟨_, rfl, PcapListImpl.insert_nonDecreasing prec _ h.1, h.2.1, ?_⟩
    intro a ha b hb
    rcases (PcapListImpl.mem_insert prec b s.gPcapList).mp hb with rfl | hb2
    · exact hin _ rfl a ha
    · exact h.2.2 a ha b hb2
  | timer bfns =>
    obtain ⟨s1, out, h1, h2, h3, -⟩ := OnDevice_CommonTimer_eq env bfns s
    exact ⟨s1, h1, OrderInv_move s s1 out h h2 h3⟩
  | flush =>
    obtain ⟨h1, h2, -⟩ := foldl_AppendPcapRec env s.gPcapList { s with gPcapList := [] }
    refine ⟨_, rfl, OrderInv_move s (FlushPcapRec env s) s.gPcapList h h1 ?_⟩
    unfold FlushPcapRec
    rw [h2]
    simp

/-- A sequence of operations in which no record is inserted below an appended one runs to the
end and keeps `OrderInv`. -/
theorem runOps_OrderInv (env : Env) :
    ∀ (ops : List Op) (s : Session), OrderInv s → inOrderArrival env s ops = true →
      ∃ s1, runOps env s ops = some s1 ∧ OrderInv s1 := by
  intro ops
  induction ops with
  | nil => intro s h _; exact ⟨s, rfl, h⟩
  | cons op ops ih =>
    intro s h hin
    simp only [inOrderArrival, Bool.and_eq_true] at hin
    obtain ⟨hin1, hin2⟩ := hin
    obtain ⟨s1, hs1, hinv1⟩ := applyOp_OrderInv env s op h (by
      intro prec hop a ha
      subst hop
      simp only [List.all_eq_true, Bool.not_eq_true'] at hin1
      exact hin1 a ha)
    rw [hs1] at hin2
    obtain ⟨s2, hs2, hinv2⟩ := ih s1 hinv1 hin2
    exact ⟨s2, by simp [runOps, hs1, hs2], hinv2⟩

/-- Insertions keep the container non-decreasing and add exactly the inserted records. -/
theorem PcapListImpl.foldl_insert (recs : List PcapFileRec) :
    ∀ l : List PcapFileRec, NonDecreasing l →
      NonDecreasing (recs.foldl (fun l prec => PcapListImpl.insert prec l) l)
        ∧ (recs.foldl (fun l prec => PcapListImpl.insert prec l) l).Perm (recs ++ l) := by
  induction recs with
  | nil => intro l h; exact ⟨h, List.Perm.refl _⟩
  | cons r rs ih =>
    intro l h
    obtain ⟨h1, h2⟩ := ih (PcapListImpl.insert r l) (PcapListImpl.insert_nonDecreasing r l h)
    refine ⟨h1, h2.trans ?_⟩
    exact ((PcapListImpl.insert_perm r l).append_left rs).trans List.perm_middle

/-! ## Facts about the bytes of a record -/

/-- Reading `n` bytes from a list that holds at least `n` bytes yields its first `n` bytes. -/
theorem range_map_getD_eq_take (buf : List Nat) :
    ∀ n, n ≤ buf.length → (List.range n).map (fun i => buf.getD i 0) = buf.take n := by
  induction buf with
  | nil =>
    intro n hn
    have : n = 0 := by simpa using hn
    subst this
    rfl
  | cons b bs ih =>
    intro n hn
    cases n with
    | zero => rfl
    | succ m =>
      rw [List.range_succ_eq_map, List.map_cons, List.map_map, List.take_succ_cons]
      have := ih m (by simpa using hn)
      simp only [List.getD_cons_zero]
      rw [← this]
      congr 1

/-- Reading past a first block `hdr` of memory yields `hdr` and then the bytes that follow. -/
theorem range_map_getD_append (hdr buf : List Nat) (n : Nat) :
    (List.range (hdr.length + n)).map (fun i => (hdr ++ buf).getD i 0)
      = hdr ++ (List.range n).map (fun i => buf.getD i 0) := by
  induction hdr with
  | nil => simp
  | cons a t ih =>
    have e : (a :: t).length + n = (t.length + n) + 1 := by simp; omega
    rw [e, List.range_succ_eq_map, List.map_cons, List.map_map, List.cons_append]
    simp only [List.getD_cons_zero]
    exact congrArg (List.cons a) ih

theorem hostBytes32_length (hostBigEndian : Bool) (v : Nat) :
    (hostBytes32 hostBigEndian v).length = 4 := by
  cases hostBigEndian <;> rfl

/-- In a container in non-decreasing key order, the records the periodic drain takes from
the front are all the records not greater than the cutoff, and the records it leaves are all
the records greater than the cutoff. -/
theorem takeWhile_eq_filter_of_nonDecreasing (cutoff : PcapFileRecHdr) :
    ∀ l : List PcapFileRec, NonDecreasing l →
      l.takeWhile (fun r => !cutoff.lt r.toPcapFileRecHdr)
          = l.filter (fun r => !cutoff.lt r.toPcapFileRecHdr)
        ∧ l.dropWhile (fun r => !cutoff.lt r.toPcapFileRecHdr)
          = l.filter (fun r => cutoff.lt r.toPcapFileRecHdr) := by
  intro l
  induction l with
  | nil => intro _; exact ⟨rfl, rfl⟩
  | cons r rest ih =>
    intro h
    unfold NonDecreasing at h
    rw [List.pairwise_cons] at h
    obtain ⟨ih1, ih2⟩ := ih h.2
    by_cases hlt : cutoff.lt r.toPcapFileRecHdr = true
    · have hall : ∀ x ∈ rest, cutoff.lt x.toPcapFileRecHdr = true := by
        intro x hx
        exact PcapFileRecHdr.lt_of_lt_of_not_lt cutoff r.toPcapFileRecHdr x.toPcapFileRecHdr hlt
          (h.1 x hx)
      have e1 : rest.filter (fun r => !cutoff.lt r.toPcapFileRecHdr) = [] := by
        rw [List.filter_eq_nil_iff]
        intro x hx
        simp [hall x hx]
      have e2 : rest.filter (fun r => cutoff.lt r.toPcapFileRecHdr) = rest :=
        List.filter_eq_self.mpr hall
      simp only [List.takeWhile_cons, List.dropWhile_cons, List.filter_cons, hlt, Bool.not_true,
        Bool.false_eq_true, if_false, if_true, e1, e2, and_self]
    · have hlt2 : cutoff.lt r.toPcapFileRecHdr = false := by simpa using hlt
      simp only [List.takeWhile_cons, List.dropWhile_cons, List.filter_cons, hlt2, Bool.not_false,
        Bool.false_eq_true, if_false, if_true, ih1, ih2, and_self]

/-- Without wrap-around, `CalcPkTimeStampNS` is the exact natural number
`w + ((t - a) * 64) / 10`. -/
theorem CalcPkTimeStampNS_exact (s : Session) (pkHdr : f9epbc_RxPkHeader)
    (hle : s.g1stPkTickClkN ≤ pkHdr.TTS_)
    (hmul : (pkHdr.TTS_ - s.g1stPkTickClkN) * 64 < 2 ^ 64)
    (hsum : s.g1stPkTimeStampNS + (pkHdr.TTS_ - s.g1stPkTickClkN) * 64 / 10 < 2 ^ 64) :
    CalcPkTimeStampNS s pkHdr
      = s.g1stPkTimeStampNS + (pkHdr.TTS_ - s.g1stPkTickClkN) * 64 / 10 := by
  simp only [CalcPkTimeStampNS, u64add, u64mul, u64sub, u64]
  have h1 : (pkHdr.TTS_ % 2 ^ 64 + 2 ^ 64 - s.g1stPkTickClkN % 2 ^ 64) % 2 ^ 64
      = pkHdr.TTS_ - s.g1stPkTickClkN := by omega
  rw [h1, Nat.mod_eq_of_lt hmul]
  exact Nat.mod_eq_of_lt hsum

/-! ## Facts about the bounds of the queued records -/

/-- An iteration either leaves the container as it was or inserts one record that meets the
bounds of `RecOk`; it never touches the trace of appended records. -/
theorem recvStep_inserts (env : Env) (s : Session) (rxbuf : DcQueue) :
    (recvStep env s rxbuf).ses.appended = s.appended
      ∧ ((recvStep env s rxbuf).ses.gPcapList = s.gPcapList
        ∨ ∃ prec, (recvStep env s rxbuf).ses.gPcapList = PcapListImpl.insert prec s.gPcapList
            ∧ RecOk prec) := by
  by_cases hacc : (recvStep env s rxbuf).branch = Branch.accepted
  · obtain ⟨hp, h60, hmax, hfull, t, hstep, hlist, -, happ, -⟩ :=
      recvStep_accepted env s rxbuf hacc
    rw [hstep, buildRec_eq]
    refine ⟨happ, Or.inr ⟨builtRec t (peekedHdr rxbuf) (rxbuf.drop kPkHdrSize), ?_, ?_⟩⟩
    · show PcapListImpl.insert _ t.gPcapList = _
      rw [hlist]
    · apply builtRec_RecOk t _ _ h60 hmax
      rw [List.length_drop]
      omega
  · have h := recvStep_not_accepted env s rxbuf hacc
    exact ⟨h.2.2.2.2.2.2.2.1, Or.inl h.2.2.2.2.2.1⟩

theorem recvStep_BufferOk (env : Env) (s : Session) (rxbuf : DcQueue) (h : BufferOk s) :
    BufferOk (recvStep env s rxbuf).ses := by
  obtain ⟨happ, hlist⟩ := recvStep_inserts env s rxbuf
  refine ⟨?_, by rw [happ]; exact h.2⟩
  rcases hlist with hl | ⟨prec, hl, hok⟩
  · rw [hl]; exact h.1
  · rw [hl]
    intro r hr
    rcases (PcapListImpl.mem_insert prec r s.gPcapList).mp hr with rfl | hr2
    · exact hok
    · exact h.1 r hr2

theorem recvLoop_BufferOk (env : Env) :
    ∀ (fuel : Nat) (s : Session) (rxbuf : DcQueue) (r : Session × DcQueue),
      BufferOk s → recvLoop env fuel s rxbuf = some r → BufferOk r.1 := by
  intro fuel
  induction fuel with
  | zero => intro s rxbuf r _ h; simp [recvLoop] at h
  | succ n ih =>
    intro s rxbuf r hs h
    have hstep := recvStep_BufferOk env s rxbuf hs
    cases hb : (recvStep env s rxbuf).branch <;> simp only [recvLoop, hb] at h
    · cases h; exact hstep
    · exact ih _ _ r hstep h
    · cases h; exact hstep
    · exact ih _ _ r hstep h
    · exact ih _ _ r hstep h

/-- Moving records from the container to the appended records keeps `BufferOk`. -/
theorem BufferOk_move (s s1 : Session) (out : List PcapFileRec) (h : BufferOk s)
    (happ : s1.appended = s.appended ++ out) (hbuf : out ++ s1.gPcapList = s.gPcapList) :
    BufferOk s1 := by
  refine ⟨?_, ?_⟩
  · intro r hr
    exact h.1 r (by rw [← hbuf]; exact List.mem_append_right _ hr)
  · intro r hr
    rw [happ] at hr
    rcases List.mem_append.mp hr with h1 | h1
    · exact h.2 r h1
    · exact h.1 r (by rw [← hbuf]; exact List.mem_append_left _ h1)

/-- Every event is handled to the end and keeps `BufferOk`. -/
theorem applyEvent_BufferOk (env : Env) (st : Session × DcQueue) (ev : Event)
    (h : BufferOk st.1) : ∃ st1, applyEvent env st ev = some st1 ∧ BufferOk st1.1 := by
  cases ev with
  | recv bytes =>
    obtain ⟨r, hr, -⟩ := recvLoop_fuel env ((st.2 ++ bytes).length + 1)
      { st.1 with RxEvCount_ := u64 (st.1.RxEvCount_ + 1) } (st.2 ++ bytes) (Nat.lt_succ_self _)
    exact ⟨r, hr, recvLoop_BufferOk env _ { st.1 with RxEvCount_ := u64 (st.1.RxEvCount_ + 1) } _ r
      h hr⟩
  | timer bfns =>
    obtain ⟨s1, out, h1, h2, h3, -⟩ := OnDevice_CommonTimer_eq env bfns st.1
    exact ⟨(s1, st.2), by simp [applyEvent, h1], BufferOk_move st.1 s1 out h h2 h3⟩
  | flush =>
    obtain ⟨h1, h2, -⟩ := foldl_AppendPcapRec env st.1.gPcapList { st.1 with gPcapList := [] }
    refine ⟨_, rfl, BufferOk_move st.1 (FlushPcapRec env st.1) st.1.gPcapList h h1 ?_⟩
    unfold FlushPcapRec
    rw [h2]
    simp

theorem runEvents_BufferOk (env : Env) :
    ∀ (evs : List Event) (st : Session × DcQueue), BufferOk st.1 →
      ∃ st1, runEvents env st evs = some st1 ∧ BufferOk st1.1 := by
  intro evs
  induction evs with
  | nil => intro st h; exact ⟨st, rfl, h⟩
  | cons ev evs ih =>
    intro st h
    obtain ⟨st1, h1, hok1⟩ := applyEvent_BufferOk env st ev h
    obtain ⟨st2, h2, hok2⟩ := ih st1 hok1
    exact ⟨st2, by simp [runEvents, h1, h2], hok2⟩

/-! ## Facts about streams of complete frames -/

/-- The peeked header depends on the first 16 bytes only. -/
theorem peekedHdr_append (f rest : List Nat) (h : kPkHdrSize ≤ f.length) :
    peekedHdr (f ++ rest) = peekedHdr f := by
  unfold peekedHdr
  rw [List.take_append_of_le_length h]

/-- The end of the loop body, run on a queue that starts with the whole payload, leaves the
bytes after the payload and does otherwise what it does on the payload alone. -/
theorem buildRec_append (t : Session) (pkHdr : f9epbc_RxPkHeader) (rx rest : List Nat)
    (hlen : rx.length = pkHdr.PkBytes_) :
    buildRec t pkHdr (rx ++ rest)
      = { branch := (buildRec t pkHdr rx).branch, ses := (buildRec t pkHdr rx).ses, rxbuf := rest } := by
  have e1 : (rx ++ rest).take pkHdr.PkBytes_ = rx.take pkHdr.PkBytes_ :=
    List.take_append_of_le_length (Nat.le_of_eq hlen.symm)
  have e2 : (rx ++ rest).drop pkHdr.PkBytes_ = rest := by
    rw [List.drop_append_of_le_length (Nat.le_of_eq hlen.symm),
      List.drop_eq_nil_of_le (Nat.le_of_eq hlen), List.nil_append]
  simp only [buildRec_eq, builtRec, e1, e2]

/-- One iteration on a queue that starts with a complete frame of valid size consumes that
frame, leaves the bytes after it, and does otherwise what it does on the frame alone; it does
not end the loop. -/
theorem recvStep_frame_append (env : Env) (s : Session) (f rest : List Nat) (hv : ValidFrame f) :
    recvStep env s (f ++ rest)
        = { branch := (recvStep env s f).branch, ses := (recvStep env s f).ses, rxbuf := rest }
      ∧ (recvStep env s f).branch ≠ Branch.noHeader
      ∧ (recvStep env s f).branch ≠ Branch.incomplete := by
  obtain ⟨h60, hmax, hlen, -⟩ := hv
  have h16 : kPkHdrSize ≤ f.length := by omega
  have hok : ¬ ((peekedHdr f).PkBytes_ < 60 ∨ kMAX_PK_SIZE ≤ (peekedHdr f).PkBytes_) := by omega
  have hfull : kPkHdrSize + (peekedHdr f).PkBytes_ ≤ f.length := by omega
  have hpk := peekedHdr_append f rest h16
  have h16b : kPkHdrSize ≤ (f ++ rest).length := by rw [List.length_append]; omega
  have hokb : ¬ ((peekedHdr (f ++ rest)).PkBytes_ < 60
      ∨ kMAX_PK_SIZE ≤ (peekedHdr (f ++ rest)).PkBytes_) := by rw [hpk]; exact hok
  have hfullb : kPkHdrSize + (peekedHdr (f ++ rest)).PkBytes_ ≤ (f ++ rest).length := by
    rw [hpk, List.length_append]; omega
  have hd : (f ++ rest).drop kPkHdrSize = f.drop kPkHdrSize ++ rest :=
    List.drop_append_of_le_length h16
  have hdl : (f.drop kPkHdrSize).length = (peekedHdr f).PkBytes_ := by
    rw [List.length_drop]; omega
  have hnil : (f.drop kPkHdrSize).drop (peekedHdr f).PkBytes_ = [] :=
    List.drop_eq_nil_of_le (Nat.le_of_eq hdl)
  have hrest : (f.drop kPkHdrSize ++ rest).drop (peekedHdr f).PkBytes_ = rest := by
    rw [List.drop_append_of_le_length (Nat.le_of_eq hdl.symm), hnil, List.nil_append]
  rw [recvStep_full env s (f ++ rest) h16b hokb hfullb, recvStep_full env s f h16 hok hfull,
    hpk, hd]
  by_cases h0 : (checkLost env s (peekedHdr f)).g1stPkTickClkN = 0
  · rw [if_pos h0, if_pos h0, buildRec_append _ _ _ _ hdl]
    exact ⟨rfl, by rw [(buildRec_branch _ _ _).1]; decide,
      by rw [(buildRec_branch _ _ _).1]; decide⟩
  · rw [if_neg h0, if_neg h0]
    by_cases hst : (peekedHdr f).TTS_ < (checkLost env s (peekedHdr f)).g1stPkTickClkN
    · rw [if_pos hst, if_pos hst, hrest]
      refine ⟨rfl, ?_, ?_⟩ <;> intro h <;> cases h
    · rw [if_neg hst, if_neg hst, buildRec_append _ _ _ _ hdl]
      exact ⟨rfl, by rw [(buildRec_branch _ _ _).1]; decide,
        by rw [(buildRec_branch _ _ _).1]; decide⟩

/-- With loss checking off, the receive loop stops at once on a partial frame and changes
neither the session nor the queue. -/
theorem recvLoop_partial (env : Env) (hoff : env.gIsCheckLost = false) (fuel : Nat) (s : Session)
    (p : DcQueue) (hp : PartialFrame p) : recvLoop env (fuel + 1) s p = some (s, p) := by
  rcases hp with hlt | ⟨hge, h60, hmax, hshort⟩
  · have hstep := recvStep_noHeader env s p hlt
    rw [recvLoop_stop env fuel s p (Or.inl (by rw [hstep])), hstep]
  · have hok : ¬ ((peekedHdr p).PkBytes_ < 60 ∨ kMAX_PK_SIZE ≤ (peekedHdr p).PkBytes_) := by omega
    have hstep := recvStep_incomplete env s p hge hok hshort
    rw [recvLoop_stop env fuel s p (Or.inr (by rw [hstep])), hstep, checkLost_off env s _ hoff]

/-- A proper prefix of a complete frame of valid size is a partial frame. -/
theorem PartialFrame_of_prefix (p t f : List Nat) (hv : ValidFrame f) (hpt : p ++ t = f)
    (hlt : p.length < f.length) : PartialFrame p := by
  obtain ⟨h60, hmax, hlen, -⟩ := hv
  by_cases h16 : kPkHdrSize ≤ p.length
  · have hpk : peekedHdr f = peekedHdr p := by rw [← hpt]; exact peekedHdr_append p t h16
    rw [hpk] at h60 hmax hlen
    exact Or.inr ⟨h16, h60, hmax, by omega⟩
  · exact Or.inl (Nat.not_le.mp h16)

/-- With loss checking off, the receive loop on complete frames of valid size followed by a
partial frame handles the frames one by one, in the order of the stream, and leaves the partial
frame in the queue. -/
theorem recvLoop_frames (env : Env) (hoff : env.gIsCheckLost = false) :
    ∀ fs : List (List Nat), (∀ f ∈ fs, ValidFrame f) →
      ∀ (s : Session) (p : DcQueue) (fuel : Nat), PartialFrame p →
        (fs.flatten ++ p).length < fuel →
        recvLoop env fuel s (fs.flatten ++ p) = some (fs.foldl (frameStep env) s, p) := by
  intro fs
  induction fs with
  | nil =>
    intro _ s p fuel hp hf
    obtain ⟨m, rfl⟩ : ∃ m, fuel = m + 1 := ⟨fuel - 1, by omega⟩
    simpa using recvLoop_partial env hoff m s p hp
  | cons f fs ih =>
    intro hv s p fuel hp hf
    obtain ⟨m, rfl⟩ : ∃ m, fuel = m + 1 := ⟨fuel - 1, by omega⟩
    have hvf : ValidFrame f := hv f (List.mem_cons_self f fs)
    have hflen : 0 < f.length := by
      obtain ⟨-, -, hlen, -⟩ := hvf
      have : kPkHdrSize = 16 := rfl
      omega
    obtain ⟨hstep, hn, hi⟩ := recvStep_frame_append env s f (fs.flatten ++ p) hvf
    have e : (f :: fs).flatten ++ p = f ++ (fs.flatten ++ p) := by
      rw [List.flatten_cons, List.append_assoc]
    rw [e] at hf ⊢
    rw [recvLoop_continue env m s _ (by rw [hstep]; exact hn) (by rw [hstep]; exact hi), hstep]
    rw [List.length_append] at hf
    exact ih (fun g hg => hv g (List.mem_cons_of_mem f hg)) _ p m hp (by omega)

/-- A prefix of a stream of complete frames of valid size consists of some of the frames,
whole, followed by a partial frame. -/
theorem frames_split :
    ∀ fs : List (List Nat), (∀ f ∈ fs, ValidFrame f) → ∀ b rest : List Nat,
      b ++ rest = fs.flatten →
      ∃ fa fb p, fs = fa ++ fb ∧ b = fa.flatten ++ p ∧ p ++ rest = fb.flatten
        ∧ PartialFrame p := by
  intro fs
  induction fs with
  | nil =>
    intro _ b rest h
    have hb : b = [] ∧ rest = [] := by simpa using h
    refine ⟨[], [], [], rfl, by simp [hb.1], by simp [hb.2], Or.inl (by decide)⟩
  | cons f fs ih =>
    intro hv b rest h
    rw [List.flatten_cons] at h
    have hb : b <+: f ++ fs.flatten := ⟨rest, h⟩
    have hf : f <+: f ++ fs.flatten := List.prefix_append f _
    by_cases hlt : b.length < f.length
    · obtain ⟨t, ht⟩ := List.prefix_of_prefix_length_le hb hf (Nat.le_of_lt hlt)
      exact ⟨[], f :: fs, b, rfl, by simp, by rw [List.flatten_cons]; exact h,
        PartialFrame_of_prefix b t f (hv f (List.mem_cons_self f fs)) ht hlt⟩
    · obtain ⟨b1, hb1⟩ := List.prefix_of_prefix_length_le hf hb (Nat.not_lt.mp hlt)
      subst hb1
      rw [List.append_assoc] at h
      obtain ⟨fa, fb, p, h1, h2, h3, h4⟩ :=
        ih (fun g hg => hv g (List.mem_cons_of_mem f hg)) b1 rest (List.append_cancel_left h)
      refine ⟨f :: fa, fb, p, by rw [h1]; rfl, ?_, h3, h4⟩
      rw [h2, List.flatten_cons, List.append_assoc]

/-- Handling the same frames from sessions that agree on the captured records leaves sessions
that agree on the captured records. -/
theorem foldl_frameStep_SameRecords (env : Env) (fs : List (List Nat)) :
    ∀ x y : Session, SameRecords x y →
      SameRecords (fs.foldl (frameStep env) x) (fs.foldl (frameStep env) y) := by
  induction fs with
  | nil => intro x y h; exact h
  | cons f fs ih =>
    intro x y h
    exact ih _ _ (recvStep_SameRecords env env rfl x y h f).2.2

/-- With loss checking off, delivering a stream of complete frames of valid size in chunks, the
unconsumed bytes staying in the queue, handles the frames one by one in the order of the
stream and leaves the queue empty. -/
theorem runEvents_chunks (env : Env) (hoff : env.gIsCheckLost = false) :
    ∀ (chunks fs : List (List Nat)) (s t : Session) (p : DcQueue),
      (∀ f ∈ fs, ValidFrame f) → PartialFrame p → p ++ chunks.flatten = fs.flatten →
      SameRecords s t →
      ∃ a, runEvents env (s, p) (chunks.map Event.recv) = some a ∧ a.2 = []
        ∧ SameRecords a.1 (fs.foldl (frameStep env) t) := by
  intro chunks
  induction chunks with
  | nil =>
    intro fs s t p hv hp hsplit hsame
    have hk : kPkHdrSize = 16 := rfl
    cases fs with
    | nil =>
      have hpnil : p = [] := by simpa using hsplit
      subst hpnil
      exact ⟨(s, []), rfl, rfl, hsame⟩
    | cons f fs =>
      exfalso
      obtain ⟨h60, hmax, hlen, -⟩ := hv f (List.mem_cons_self f fs)
      have hpe : p = f ++ fs.flatten := by simpa using hsplit
      have h16 : kPkHdrSize ≤ f.length := by omega
      have hpk : peekedHdr p = peekedHdr f := by rw [hpe]; exact peekedHdr_append f _ h16
      have hpl : f.length ≤ p.length := by rw [hpe, List.length_append]; omega
      rcases hp with h1 | ⟨-, -, -, h4⟩
      · omega
      · rw [hpk] at h4
        omega
  | cons c cs ih =>
    intro fs s t p hv hp hsplit hsame
    have hsplit2 : (p ++ c) ++ cs.flatten = fs.flatten := by
      rw [List.append_assoc, ← List.flatten_cons]; exact hsplit
    obtain ⟨fa, fb, q, h1, h2, h3, h4⟩ := frames_split fs hv (p ++ c) cs.flatten hsplit2
    have hva : ∀ f ∈ fa, ValidFrame f := fun f hf => hv f (by rw [h1]; exact List.mem_append_left _ hf)
    have hvb : ∀ f ∈ fb, ValidFrame f := fun f hf => hv f (by rw [h1]; exact List.mem_append_right _ hf)
    have hrecv : OnDevice_Recv env s (p ++ c)
        = some (fa.foldl (frameStep env) { s with RxEvCount_ := u64 (s.RxEvCount_ + 1) }, q) := by
      unfold OnDevice_Recv
      rw [h2]
      exact recvLoop_frames env hoff fa hva _ q _ h4 (Nat.lt_succ_self _)
    have hbump : SameRecords { s with RxEvCount_ := u64 (s.RxEvCount_ + 1) } t := hsame
    obtain ⟨a, ha, hq, hfin⟩ := ih fb
      (fa.foldl (frameStep env) { s with RxEvCount_ := u64 (s.RxEvCount_ + 1) })
      (fa.foldl (frameStep env) t) q hvb h4 h3
      (foldl_frameStep_SameRecords env fa _ _ hbump)
    refine ⟨a, ?_, hq, ?_⟩
    · simp only [List.map_cons, runEvents, applyEvent, hrecv, Option.some_bind]
      exact ha
    · rw [h1, List.foldl_append]
      exact hfin

/-! ## Timestamp reconstruction: theorems -/

/-- C1: `CalcPkTimeStampNS` returns `w + ((t - a) * 64) / 10` computed in unsigned 64-bit
arithmetic with truncating division, where `a` is the anchor tick, `w` the anchor wall-clock and
`t` the tick of the frame; for `a = 1000`, `w = 2000000000`, `t = 2000` it returns `2000006400`;
and when `a ≤ t` and neither the product nor the sum exceeds `2 ^ 64 - 1` it is the exact
natural number `w + ((t - a) * 64) / 10`. -/
theorem CalcPkTimeStampNS_spec (s : Session) (pkHdr : f9epbc_RxPkHeader) :
    CalcPkTimeStampNS s pkHdr
        = (s.g1stPkTimeStampNS
            + ((pkHdr.TTS_ % 2 ^ 64 + 2 ^ 64 - s.g1stPkTickClkN % 2 ^ 64) % 2 ^ 64 * 64) % 2 ^ 64 / 10)
          % 2 ^ 64
      ∧ (s.g1stPkTickClkN = 1000 → s.g1stPkTimeStampNS = 2000000000 → pkHdr.TTS_ = 2000 →
          CalcPkTimeStampNS s pkHdr = 2000006400)
      ∧ (s.g1stPkTickClkN ≤ pkHdr.TTS_ →
          (pkHdr.TTS_ - s.g1stPkTickClkN) * 64 ≤ 2 ^ 64 - 1 →
          s.g1stPkTimeStampNS + (pkHdr.TTS_ - s.g1stPkTickClkN) * 64 / 10 ≤ 2 ^ 64 - 1 →
          CalcPkTimeStampNS s pkHdr
            = s.g1stPkTimeStampNS + (pkHdr.TTS_ - s.g1stPkTickClkN) * 64 / 10) := by
  refine ⟨rfl, ?_, ?_⟩
  · intro ha hw ht
    simp only [CalcPkTimeStampNS, u64add, u64mul, u64sub, u64, ha, hw, ht]
    norm_num
  · intro hle hmul hsum
    simp only [CalcPkTimeStampNS, u64add, u64mul, u64sub, u64]
    have h1 : (pkHdr.TTS_ % 2 ^ 64 + 2 ^ 64 - s.g1stPkTickClkN % 2 ^ 64) % 2 ^ 64
        = pkHdr.TTS_ - s.g1stPkTickClkN := by omega
    rw [h1]
    have h2 : (pkHdr.TTS_ - s.g1stPkTickClkN) * 64 % 2 ^ 64
        = (pkHdr.TTS_ - s.g1stPkTickClkN) * 64 := Nat.mod_eq_of_lt (by omega)
    rw [h2]
    exact Nat.mod_eq_of_lt (by omega)

/-- C1, at an instance: anchor tick 1000, anchor wall-clock 2000000000, frame tick 2000. -/
theorem CalcPkTimeStampNS_spec_witness :
    CalcPkTimeStampNS { g1stPkTickClkN := 1000, g1stPkTimeStampNS := 2000000000 }
        { TTS_ := 2000, PkBytes_ := 60, PkBadCount_ := 0, Padding2b_ := [0, 0] } = 2000006400
      ∧ CalcPkTimeStampNS { g1stPkTickClkN := 1000, g1stPkTimeStampNS := 2000000000 }
          { TTS_ := 2000, PkBytes_ := 60, PkBadCount_ := 0, Padding2b_ := [0, 0] }
        = 2000000000 + (2000 - 1000) * 64 / 10 :=
  ⟨(CalcPkTimeStampNS_spec { g1stPkTickClkN := 1000, g1stPkTimeStampNS := 2000000000 }
      { TTS_ := 2000, PkBytes_ := 60, PkBadCount_ := 0, Padding2b_ := [0, 0] }).2.1 rfl rfl rfl,
   (CalcPkTimeStampNS_spec { g1stPkTickClkN := 1000, g1stPkTimeStampNS := 2000000000 }
      { TTS_ := 2000, PkBytes_ := 60, PkBadCount_ := 0, Padding2b_ := [0, 0] }).2.2
      (by decide) (by decide) (by decide)⟩

/-! ## The size check of the frame parser -/

/-- C2: in `OnDevice_Recv` an iteration that has peeked a header takes the bad-packet branch
exactly when the declared `PkBytes_` is below 60 or at least 2048, and the bad-packet branch
inserts no record and counts none. -/
theorem recvStep_badSize_iff (env : Env) (s : Session) (rxbuf : DcQueue)
    (h : kPkHdrSize ≤ rxbuf.length) :
    ((recvStep env s rxbuf).branch = Branch.badSize ↔
        ((peekedHdr rxbuf).PkBytes_ < 60 ∨ 2048 ≤ (peekedHdr rxbuf).PkBytes_))
      ∧ ((recvStep env s rxbuf).branch = Branch.badSize →
          (recvStep env s rxbuf).ses.gPcapList = s.gPcapList
            ∧ (recvStep env s rxbuf).ses.PcapCount_ = s.PcapCount_) := by
  have key : (recvStep env s rxbuf).branch = Branch.badSize ↔
      ((peekedHdr rxbuf).PkBytes_ < 60 ∨ kMAX_PK_SIZE ≤ (peekedHdr rxbuf).PkBytes_) := by
    constructor
    · intro hb
      by_contra hok
      by_cases hfull : kPkHdrSize + (peekedHdr rxbuf).PkBytes_ ≤ rxbuf.length
      · rw [recvStep_full env s rxbuf h hok hfull] at hb
        split_ifs at hb
        · rw [(buildRec_branch _ _ _).1] at hb; cases hb
        · rw [(buildRec_branch _ _ _).1] at hb; cases hb
      · rw [recvStep_incomplete env s rxbuf h hok (Nat.not_le.mp hfull)] at hb
        cases hb
    · intro hbad
      rw [recvStep_badSize env s rxbuf h hbad]
  refine ⟨key, ?_⟩
  intro hb
  rw [recvStep_badSize env s rxbuf h (key.mp hb)]
  exact ⟨(checkLost_frame env s (peekedHdr rxbuf)).2.2.2.2.2.2.1,
    (checkLost_frame env s (peekedHdr rxbuf)).2.2.2.2.1⟩

/-- C2, at instances: headers declaring 59 and 2048 bytes are rejected, a header declaring 60
bytes passes the size check. -/
theorem recvStep_badSize_iff_witness :
    (recvStep sampleEnv {} (sampleHdr 7 59 0)).branch = Branch.badSize
      ∧ (recvStep sampleEnv {} (sampleHdr 7 2048 0)).branch = Branch.badSize
      ∧ (recvStep sampleEnv {} (sampleHdr 7 60 0)).branch ≠ Branch.badSize
      ∧ (recvStep sampleEnv {} (sampleHdr 7 2047 0)).branch ≠ Branch.badSize :=
  ⟨(recvStep_badSize_iff sampleEnv {} (sampleHdr 7 59 0) (by decide)).1.mpr (by decide),
   (recvStep_badSize_iff sampleEnv {} (sampleHdr 7 2048 0) (by decide)).1.mpr (by decide),
   fun hb => absurd ((recvStep_badSize_iff sampleEnv {} (sampleHdr 7 60 0) (by decide)).1.mp hb)
     (by decide),
   fun hb => absurd ((recvStep_badSize_iff sampleEnv {} (sampleHdr 7 2047 0) (by decide)).1.mp hb)
     (by decide)⟩

/-! ## The periodic drain and its horizon -/

/-- C3, as stated, fails: with the cutoff at 1700000000 s and 0 ns, a queued record stamped
1700000000 s and 0 ns, whose key is not less than the cutoff key, is appended to the file and
removed from the container. -/
theorem OnDevice_CommonTimer_horizon_counterexample :
    (sampleRec 1700000000 0 0).toPcapFileRecHdr.lt (flushBf 1700000000000000000) = false
      ∧ (OnDevice_CommonTimer sampleEnv 1700000000000000000
            { gPcapList := [sampleRec 1700000000 0 0] }).map
          (fun s1 => (s1.appended, s1.gPcapList))
        = some ([sampleRec 1700000000 0 0], []) := by
  constructor
  · decide
  · rfl

/-- C3, amended: for every container content and every cutoff, the periodic drain returns and
never appends a record whose key is greater than the cutoff key; the records it appends are a
prefix of the container, and it stops at the first record whose key is greater than the cutoff,
which stays at the head of the container. -/
theorem OnDevice_CommonTimer_horizon (env : Env) (bfns : Nat) (s : Session) :
    ∃ s1 out, OnDevice_CommonTimer env bfns s = some s1
      ∧ s1.appended = s.appended ++ out
      ∧ out ++ s1.gPcapList = s.gPcapList
      ∧ (∀ r ∈ out, (flushBf bfns).lt r.toPcapFileRecHdr = false)
      ∧ (∀ r rest, s1.gPcapList = r :: rest → (flushBf bfns).lt r.toPcapFileRecHdr = true) := by
  obtain ⟨s1, out, h1, h2, h3, h4, h5, -⟩ := OnDevice_CommonTimer_eq env bfns s
  exact ⟨s1, out, h1, h2, h3, h4, h5⟩

/-! ## The order of the capture file -/

/-- C4, as stated, fails, with forced drains and with periodic drains alone: a record stamped
1700000005 s is queued and drained, then a record stamped 1700000003 s arrives and is drained;
the file holds the later record first. -/
theorem runOps_order_counterexample :
    (runOps sampleEnv {}
        [Op.insert (sampleRec 1700000005 0 1), Op.flush,
          Op.insert (sampleRec 1700000003 0 2), Op.flush]).map (fun s1 => s1.appended)
      = some [sampleRec 1700000005 0 1, sampleRec 1700000003 0 2]
    ∧ (runOps sampleEnv {}
        [Op.insert (sampleRec 1700000005 0 1), Op.timer 1700000009000000000,
          Op.insert (sampleRec 1700000003 0 2), Op.timer 1700000009000000000]).map
          (fun s1 => s1.appended)
      = some [sampleRec 1700000005 0 1, sampleRec 1700000003 0 2]
    ∧ ¬ NonDecreasing [sampleRec 1700000005 0 1, sampleRec 1700000003 0 2] := by
  refine ⟨rfl, rfl, ?_⟩
  unfold NonDecreasing
  rw [List.pairwise_cons]
  intro h
  exact absurd (h.1 (sampleRec 1700000003 0 2) (List.mem_singleton.mpr rfl)) (by decide)

/-- C4, amended: starting from an empty container and an empty record sequence, every sequence
of insertions, periodic drains and forced drains in which no inserted record has a key less than
the key of a record already appended runs to its end, and the records appended to the file are
non-decreasing by `(ts_sec, ts_xsec)`. -/
theorem runOps_nonDecreasing (env : Env) (s0 : Session) (ops : List Op)
    (hbuf : s0.gPcapList = []) (hfile : s0.appended = [])
    (harrive : inOrderArrival env s0 ops = true) :
    ∃ s1, runOps env s0 ops = some s1 ∧ NonDecreasing s1.appended := by
  have h0 : OrderInv s0 := by
    unfold OrderInv NonDecreasing
    rw [hbuf, hfile]
    exact ⟨List.Pairwise.nil, List.Pairwise.nil, fun a ha => absurd ha (List.not_mem_nil a)⟩
  obtain ⟨s1, hs1, hinv⟩ := runOps_OrderInv env ops s0 h0 harrive
  exact ⟨s1, hs1, hinv.2.1⟩

/-- C4, amended, at an instance: records stamped 7, 5 and 6 ns after 1700000000 s arrive in that
order, a periodic drain with cutoff 6 ns writes two of them, a record stamped 6 ns arrives, and a
forced drain writes the rest. -/
theorem runOps_nonDecreasing_witness :
    ∃ s1, runOps sampleEnv {}
        [Op.insert (sampleRec 1700000000 7 1), Op.insert (sampleRec 1700000000 5 2),
          Op.insert (sampleRec 1700000000 6 3), Op.timer 1700000000000000006,
          Op.insert (sampleRec 1700000000 6 4), Op.flush] = some s1
      ∧ NonDecreasing s1.appended :=
  runOps_nonDecreasing sampleEnv {}
    [Op.insert (sampleRec 1700000000 7 1), Op.insert (sampleRec 1700000000 5 2),
      Op.insert (sampleRec 1700000000 6 3), Op.timer 1700000000000000006,
      Op.insert (sampleRec 1700000000 6 4), Op.flush] rfl rfl (by decide)

/-! ## The forced drain -/

/-- C5: whatever records `recs` were inserted into the container, in whatever order, after
`FlushPcapRec` the container is empty and the records appended by the call are the queued
records, each once (a permutation of `recs`), in non-decreasing key order; the file grows by
the bytes of these records in that order. -/
theorem FlushPcapRec_complete (env : Env) (s : Session) (recs : List PcapFileRec)
    (hbuf : s.gPcapList = PcapListImpl.ofArrivals recs) :
    (FlushPcapRec env s).gPcapList = []
      ∧ (FlushPcapRec env s).appended = s.appended ++ s.gPcapList
      ∧ s.gPcapList.Perm recs
      ∧ NonDecreasing s.gPcapList
      ∧ (FlushPcapRec env s).gPcapOutFile
          = s.gPcapOutFile ++
            (s.gPcapList.map (fun r => File.Append [] (r.memory env.hostBigEndian)
              (kRecHdrSize + r.incl_len))).flatten := by
  obtain ⟨h1, h2, -, -, h5⟩ := foldl_AppendPcapRec env s.gPcapList { s with gPcapList := [] }
  obtain ⟨h6, h7⟩ := PcapListImpl.foldl_insert recs [] List.Pairwise.nil
  refine ⟨h2, h1, ?_, ?_, h5⟩
  · rw [hbuf]
    simpa [PcapListImpl.ofArrivals] using h7
  · rw [hbuf]
    exact h6

/-- C5, at an instance: three records arrive stamped 7, 5 and 6 ns after 1700000000 s. -/
theorem FlushPcapRec_complete_witness :
    (FlushPcapRec sampleEnv
        { gPcapList := [sampleRec 1700000000 5 2, sampleRec 1700000000 6 3,
            sampleRec 1700000000 7 1] }).gPcapList = []
      ∧ (FlushPcapRec sampleEnv
        { gPcapList := [sampleRec 1700000000 5 2, sampleRec 1700000000 6 3,
            sampleRec 1700000000 7 1] }).appended
          = [sampleRec 1700000000 5 2, sampleRec 1700000000 6 3, sampleRec 1700000000 7 1] :=
  ⟨(FlushPcapRec_complete sampleEnv
      { gPcapList := [sampleRec 1700000000 5 2, sampleRec 1700000000 6 3,
          sampleRec 1700000000 7 1] }
      [sampleRec 1700000000 7 1, sampleRec 1700000000 5 2, sampleRec 1700000000 6 3]
      (by decide)).1,
   (FlushPcapRec_complete sampleEnv
      { gPcapList := [sampleRec 1700000000 5 2, sampleRec 1700000000 6 3,
          sampleRec 1700000000 7 1] }
      [sampleRec 1700000000 7 1, sampleRec 1700000000 5 2, sampleRec 1700000000 6 3]
      (by decide)).2.1⟩

/-! ## The anchor -/

/-- C6 fails on the code when the first valid frame carries tick 0: that frame is accepted and
sets the anchor to tick 0 and the first clock reading, and the next valid frame, with tick 7,
replaces both the anchor tick and the anchor wall-clock. -/
theorem OnDevice_Recv_anchor_tick_zero :
    (OnDevice_Recv sampleEnv {} (sampleFrame 0 60 0 0)).map
        (fun r => (r.1.g1stPkTickClkN, r.1.g1stPkTimeStampNS, r.1.PcapCount_, r.2))
      = some (0, 1700000000000000000, 1, [])
    ∧ ((OnDevice_Recv sampleEnv {} (sampleFrame 0 60 0 0)).bind
        (fun r => OnDevice_Recv sampleEnv r.1 (r.2 ++ sampleFrame 7 60 1 0))).map
        (fun r => (r.1.g1stPkTickClkN, r.1.g1stPkTimeStampNS, r.1.PcapCount_, r.2))
      = some (7, 1700000000000000001, 2, []) := by
  constructor
  · rfl
  · rfl

/-! ## The check of the sequence number -/

/-- C7: with loss checking enabled, for every expected-next `gPkSeqNext` and every incoming
16-bit sequence number `pkseq`: when they are equal, expected-next becomes `pkseq + 1` (as a
16-bit value) and nothing is logged; when `pkseq` is greater, expected-next becomes `pkseq + 1`
and, with `g1stPkTimeStampNS` set, one loss event is logged that names the last lost number
`pkseq - 1` and, for a gap above one, the expected number and the gap `pkseq - gPkSeqNext`;
when `pkseq` is smaller, one out-of-order event is logged and expected-next is unchanged. -/
theorem checkLost_spec (env : Env) (s : Session) (pkHdr : f9epbc_RxPkHeader)
    (hon : env.gIsCheckLost = true)
    (hseq : hostValue env.hostBigEndian pkHdr.Padding2b_ < 2 ^ 16) :
    (hostValue env.hostBigEndian pkHdr.Padding2b_ = s.gPkSeqNext →
        (checkLost env s pkHdr).gPkSeqNext
            = (hostValue env.hostBigEndian pkHdr.Padding2b_ + 1) % 2 ^ 16
          ∧ (checkLost env s pkHdr).logs = s.logs)
      ∧ (s.gPkSeqNext < hostValue env.hostBigEndian pkHdr.Padding2b_ →
        (checkLost env s pkHdr).gPkSeqNext
            = (hostValue env.hostBigEndian pkHdr.Padding2b_ + 1) % 2 ^ 16
          ∧ (s.g1stPkTimeStampNS ≠ 0 →
              (checkLost env s pkHdr).logs
                = s.logs ++ [LogEvent.PkLost (GetPkTimeStamp s pkHdr)
                    (hostValue env.hostBigEndian pkHdr.Padding2b_ - 1)
                    (if 1 < hostValue env.hostBigEndian pkHdr.Padding2b_ - s.gPkSeqNext then
                      some (s.gPkSeqNext,
                        hostValue env.hostBigEndian pkHdr.Padding2b_ - s.gPkSeqNext)
                    else none)])
          ∧ (s.g1stPkTimeStampNS = 0 → (checkLost env s pkHdr).logs = s.logs))
      ∧ (hostValue env.hostBigEndian pkHdr.Padding2b_ < s.gPkSeqNext →
        (checkLost env s pkHdr).gPkSeqNext = s.gPkSeqNext
          ∧ (checkLost env s pkHdr).logs
              = s.logs ++ [LogEvent.PkOutOfOrder s.gPkSeqNext
                  (hostValue env.hostBigEndian pkHdr.Padding2b_)]) := by
  refine ⟨?_, ?_, ?_⟩
  · intro heq
    simp [checkLost, hon, heq, u16]
  · intro hlt
    have hne : ¬ hostValue env.hostBigEndian pkHdr.Padding2b_ = s.gPkSeqNext := by omega
    have e1 : u16 (hostValue env.hostBigEndian pkHdr.Padding2b_ - s.gPkSeqNext)
        = hostValue env.hostBigEndian pkHdr.Padding2b_ - s.gPkSeqNext :=
      Nat.mod_eq_of_lt (by omega)
    have e2 : u16 (hostValue env.hostBigEndian pkHdr.Padding2b_ - 1)
        = hostValue env.hostBigEndian pkHdr.Padding2b_ - 1 :=
      Nat.mod_eq_of_lt (by omega)
    by_cases h0 : s.g1stPkTimeStampNS = 0
    · refine ⟨?_, fun h => absurd h0 h, fun _ => ?_⟩ <;>
        simp [checkLost, hon, hne, hlt, h0, u16]
    · refine ⟨?_, fun _ => ?_, fun h => absurd h h0⟩
      · simp [checkLost, hon, hne, hlt, h0, u16]
      · simp only [checkLost, hon, hne, hlt, h0, if_true, if_false, ne_eq, not_false_eq_true,
          gt_iff_lt, e1, e2]
  · intro hgt
    have hne : ¬ hostValue env.hostBigEndian pkHdr.Padding2b_ = s.gPkSeqNext := by omega
    have hnl : ¬ s.gPkSeqNext < hostValue env.hostBigEndian pkHdr.Padding2b_ := by omega
    simp [checkLost, hon, hne, hnl]

/-- C7, at the instances of the claim: expected-next 5 and incoming 8, with the anchor set,
logs a loss of 3 and gives expected-next 9; expected-next 5 and incoming 3 logs out-of-order
and leaves expected-next 5. -/
theorem checkLost_spec_witness :
    ((checkLost sampleEnvL (sampleAnchored 5) (AdjustEndian (sampleHdr 2000 60 8))).gPkSeqNext = 9
      ∧ (checkLost sampleEnvL (sampleAnchored 5) (AdjustEndian (sampleHdr 2000 60 8))).logs
        = [LogEvent.PkLost 1700000000000006 7 (some (5, 3))])
    ∧ ((checkLost sampleEnvL (sampleAnchored 5) (AdjustEndian (sampleHdr 2000 60 3))).gPkSeqNext = 5
      ∧ (checkLost sampleEnvL (sampleAnchored 5) (AdjustEndian (sampleHdr 2000 60 3))).logs
        = [LogEvent.PkOutOfOrder 5 3]) :=
  ⟨⟨((checkLost_spec sampleEnvL (sampleAnchored 5) (AdjustEndian (sampleHdr 2000 60 8)) rfl (by decide)).2.1
        (by decide)).1,
     ((checkLost_spec sampleEnvL (sampleAnchored 5) (AdjustEndian (sampleHdr 2000 60 8)) rfl (by decide)).2.1
        (by decide)).2.1 (by decide)⟩,
   (checkLost_spec sampleEnvL (sampleAnchored 5) (AdjustEndian (sampleHdr 2000 60 3)) rfl (by decide)).2.2
      (by decide)⟩

/-! ## Bad frames and stale frames -/

/-- C8, as stated, fails: a queue of 20 bytes whose header declares 2048 payload bytes takes
the bad-packet branch and is left empty, so 20 bytes are removed and not 16 + 2048. -/
theorem recvStep_badSize_resync_counterexample :
    (peekedHdr (sampleHdr 7 2048 0 ++ [1, 2, 3, 4])).PkBytes_ = 2048
      ∧ (sampleHdr 7 2048 0 ++ [1, 2, 3, 4]).length = 20
      ∧ (recvStep sampleEnv {} (sampleHdr 7 2048 0 ++ [1, 2, 3, 4])).branch = Branch.badSize
      ∧ (recvStep sampleEnv {} (sampleHdr 7 2048 0 ++ [1, 2, 3, 4])).rxbuf = []
      ∧ (OnDevice_Recv sampleEnv {} (sampleHdr 7 2048 0 ++ [1, 2, 3, 4])).map (fun r => r.2)
          = some [] := by
  refine ⟨?_, ?_, ?_, ?_, ?_⟩ <;> decide

/-- C8, amended: for every queue whose peeked header declares `PkBytes_ < 60` or
`PkBytes_ ≥ 2048`, the iteration inserts no record, counts none, leaves the anchor unchanged and
calls `PopConsumed(16 + PkBytes_)`: it removes exactly `16 + PkBytes_` bytes when that many are
buffered and every buffered byte otherwise; the loop then goes on with what is left. -/
theorem recvStep_badSize_resync (env : Env) (s : Session) (rxbuf : DcQueue)
    (h : kPkHdrSize ≤ rxbuf.length)
    (hbad : (peekedHdr rxbuf).PkBytes_ < 60 ∨ 2048 ≤ (peekedHdr rxbuf).PkBytes_) :
    (recvStep env s rxbuf).branch = Branch.badSize
      ∧ (recvStep env s rxbuf).ses.gPcapList = s.gPcapList
      ∧ (recvStep env s rxbuf).ses.PcapCount_ = s.PcapCount_
      ∧ (recvStep env s rxbuf).ses.g1stPkTickClkN = s.g1stPkTickClkN
      ∧ (recvStep env s rxbuf).ses.g1stPkTimeStampNS = s.g1stPkTimeStampNS
      ∧ (recvStep env s rxbuf).rxbuf = rxbuf.drop (16 + (peekedHdr rxbuf).PkBytes_)
      ∧ (16 + (peekedHdr rxbuf).PkBytes_ ≤ rxbuf.length →
          (recvStep env s rxbuf).rxbuf.length + (16 + (peekedHdr rxbuf).PkBytes_) = rxbuf.length)
      ∧ (rxbuf.length < 16 + (peekedHdr rxbuf).PkBytes_ → (recvStep env s rxbuf).rxbuf = [])
      ∧ ∀ fuel, recvLoop env (fuel + 1) s rxbuf
          = recvLoop env fuel (recvStep env s rxbuf).ses
              (rxbuf.drop (16 + (peekedHdr rxbuf).PkBytes_)) := by
  have hc := checkLost_frame env s (peekedHdr rxbuf)
  have hstep := recvStep_badSize env s rxbuf h hbad
  have hb : (recvStep env s rxbuf).branch = Branch.badSize := by rw [hstep]
  have hrx : (recvStep env s rxbuf).rxbuf = rxbuf.drop (16 + (peekedHdr rxbuf).PkBytes_) := by
    rw [hstep]; rfl
  refine ⟨hb, ?_, ?_, ?_, ?_, hrx, ?_, ?_, ?_⟩
  · rw [hstep]; exact hc.2.2.2.2.2.2.1
  · rw [hstep]; exact hc.2.2.2.2.1
  · rw [hstep]; exact hc.2.1
  · rw [hstep]; exact hc.1
  · intro hle
    rw [hrx, List.length_drop]
    omega
  · intro hlt
    rw [hrx]
    exact List.drop_eq_nil_of_le (Nat.le_of_lt hlt)
  · intro fuel
    rw [recvLoop_continue env fuel s rxbuf (by rw [hb]; decide) (by rw [hb]; decide), hrx]

/-- C8, amended, at an instance: a fully buffered frame declaring 59 payload bytes, followed by
one more byte, is skipped whole and the scan resumes at that byte. -/
theorem recvStep_badSize_resync_witness :
    (recvStep sampleEnv {} (sampleFrame 7 59 0 0 ++ [9])).branch = Branch.badSize
      ∧ (recvStep sampleEnv {} (sampleFrame 7 59 0 0 ++ [9])).rxbuf = [9] :=
  ⟨(recvStep_badSize_resync sampleEnv {} (sampleFrame 7 59 0 0 ++ [9]) (by decide)
      (by decide)).1,
   (recvStep_badSize_resync sampleEnv {} (sampleFrame 7 59 0 0 ++ [9]) (by decide)
      (by decide)).2.2.2.2.2.1⟩

/-- C9: a fully buffered frame of valid size whose tick is smaller than the anchor tick is
discarded: the iteration takes the stale branch, the session is the one the sequence check
left, so no record is inserted and `PcapCount_`, `gLastRxNS` and the anchor are unchanged, the
16 header bytes and the `PkBytes_` payload bytes are removed, and the loop goes on with the
bytes that follow. -/
theorem recvStep_stale (env : Env) (s : Session) (rxbuf : DcQueue)
    (h : kPkHdrSize ≤ rxbuf.length)
    (hok : ¬ ((peekedHdr rxbuf).PkBytes_ < 60 ∨ 2048 ≤ (peekedHdr rxbuf).PkBytes_))
    (hfull : 16 + (peekedHdr rxbuf).PkBytes_ ≤ rxbuf.length)
    (hstale : (peekedHdr rxbuf).TTS_ < s.g1stPkTickClkN) :
    (recvStep env s rxbuf).branch = Branch.stale
      ∧ (recvStep env s rxbuf).ses = checkLost env s (peekedHdr rxbuf)
      ∧ (recvStep env s rxbuf).ses.gPcapList = s.gPcapList
      ∧ (recvStep env s rxbuf).ses.PcapCount_ = s.PcapCount_
      ∧ (recvStep env s rxbuf).ses.gLastRxNS = s.gLastRxNS
      ∧ (recvStep env s rxbuf).ses.g1stPkTickClkN = s.g1stPkTickClkN
      ∧ (recvStep env s rxbuf).ses.g1stPkTimeStampNS = s.g1stPkTimeStampNS
      ∧ (recvStep env s rxbuf).rxbuf = rxbuf.drop (16 + (peekedHdr rxbuf).PkBytes_)
      ∧ (recvStep env s rxbuf).rxbuf.length + 16 + (peekedHdr rxbuf).PkBytes_ = rxbuf.length
      ∧ ∀ fuel, recvLoop env (fuel + 1) s rxbuf
          = recvLoop env fuel (checkLost env s (peekedHdr rxbuf))
              (rxbuf.drop (16 + (peekedHdr rxbuf).PkBytes_)) := by
  have hc := checkLost_frame env s (peekedHdr rxbuf)
  have hne : ¬ (checkLost env s (peekedHdr rxbuf)).g1stPkTickClkN = 0 := by
    rw [hc.2.1]; omega
  have hlt : (peekedHdr rxbuf).TTS_ < (checkLost env s (peekedHdr rxbuf)).g1stPkTickClkN := by
    rw [hc.2.1]; exact hstale
  have hstep : recvStep env s rxbuf
      = { branch := Branch.stale, ses := checkLost env s (peekedHdr rxbuf)
          rxbuf := rxbuf.drop (16 + (peekedHdr rxbuf).PkBytes_) } := by
    rw [recvStep_full env s rxbuf h hok hfull, if_neg hne, if_pos hlt, List.drop_drop]
    rfl
  have hb : (recvStep env s rxbuf).branch = Branch.stale := by rw [hstep]
  refine ⟨hb, ?_, ?_, ?_, ?_, ?_, ?_, ?_, ?_, ?_⟩
  · rw [hstep]
  · rw [hstep]; exact hc.2.2.2.2.2.2.1
  · rw [hstep]; exact hc.2.2.2.2.1
  · rw [hstep]; exact hc.2.2.1
  · rw [hstep]; exact hc.2.1
  · rw [hstep]; exact hc.1
  · rw [hstep]
  · rw [hstep]
    simp only [List.length_drop]
    omega
  · intro fuel
    rw [recvLoop_continue env fuel s rxbuf (by rw [hb]; decide) (by rw [hb]; decide), hstep]

/-- C9, at an instance: with the anchor at tick 1000, a frame with tick 500 and 60 payload
bytes, followed by one more byte, is dropped whole. -/
theorem recvStep_stale_witness :
    (recvStep sampleEnv (sampleAnchored 0) (sampleFrame 500 60 0 0 ++ [9])).branch = Branch.stale
      ∧ (recvStep sampleEnv (sampleAnchored 0) (sampleFrame 500 60 0 0 ++ [9])).ses
          = sampleAnchored 0
      ∧ (recvStep sampleEnv (sampleAnchored 0) (sampleFrame 500 60 0 0 ++ [9])).rxbuf = [9] :=
  ⟨(recvStep_stale sampleEnv (sampleAnchored 0) (sampleFrame 500 60 0 0 ++ [9]) (by decide)
      (by decide) (by decide) (by decide)).1,
   (recvStep_stale sampleEnv (sampleAnchored 0) (sampleFrame 500 60 0 0 ++ [9]) (by decide)
      (by decide) (by decide) (by decide)).2.1,
   (recvStep_stale sampleEnv (sampleAnchored 0) (sampleFrame 500 60 0 0 ++ [9]) (by decide)
      (by decide) (by decide) (by decide)).2.2.2.2.2.2.2.1⟩

/-! ## The bytes of an appended record -/

/-- C10: for every record, `AppendPcapRec` appends the four header fields `ts_sec`, `ts_xsec`,
`incl_len`, `orig_len`, four bytes each, followed by the first `incl_len` bytes of
`packet_buffer`; the file grows by `16 + incl_len` bytes, which is less than the
`16 + 2048` bytes of the structure whenever `incl_len < 2048`. -/
theorem AppendPcapRec_bytes (env : Env) (s : Session) (rec : PcapFileRec) :
    (AppendPcapRec env s rec).gPcapOutFile
        = s.gPcapOutFile ++
          (hostBytes32 env.hostBigEndian rec.ts_sec ++ hostBytes32 env.hostBigEndian rec.ts_xsec
            ++ hostBytes32 env.hostBigEndian rec.incl_len
            ++ hostBytes32 env.hostBigEndian rec.orig_len)
          ++ (List.range rec.incl_len).map (fun i => rec.packet_buffer.getD i 0)
      ∧ (hostBytes32 env.hostBigEndian rec.ts_sec).length = 4
      ∧ (hostBytes32 env.hostBigEndian rec.ts_xsec).length = 4
      ∧ (hostBytes32 env.hostBigEndian rec.incl_len).length = 4
      ∧ (hostBytes32 env.hostBigEndian rec.orig_len).length = 4
      ∧ (rec.incl_len ≤ rec.packet_buffer.length →
          (List.range rec.incl_len).map (fun i => rec.packet_buffer.getD i 0)
            = rec.packet_buffer.take rec.incl_len)
      ∧ (AppendPcapRec env s rec).gPcapOutFile.length = s.gPcapOutFile.length + (16 + rec.incl_len)
      ∧ (rec.incl_len < kMAX_PK_SIZE →
          (AppendPcapRec env s rec).gPcapOutFile.length
            < s.gPcapOutFile.length + (16 + kMAX_PK_SIZE)) := by
  have hlen : (hostBytes32 env.hostBigEndian rec.ts_sec ++ hostBytes32 env.hostBigEndian rec.ts_xsec
      ++ hostBytes32 env.hostBigEndian rec.incl_len
      ++ hostBytes32 env.hostBigEndian rec.orig_len).length = kRecHdrSize := by
    simp only [List.length_append, hostBytes32_length]
    rfl
  have hbytes : (AppendPcapRec env s rec).gPcapOutFile
      = s.gPcapOutFile ++
        (hostBytes32 env.hostBigEndian rec.ts_sec ++ hostBytes32 env.hostBigEndian rec.ts_xsec
          ++ hostBytes32 env.hostBigEndian rec.incl_len
          ++ hostBytes32 env.hostBigEndian rec.orig_len)
        ++ (List.range rec.incl_len).map (fun i => rec.packet_buffer.getD i 0) := by
    simp only [AppendPcapRec, File.Append, PcapFileRec.memory]
    rw [← hlen, range_map_getD_append]
    simp only [List.append_assoc]
  have hsize : (AppendPcapRec env s rec).gPcapOutFile.length
      = s.gPcapOutFile.length + (16 + rec.incl_len) := by
    simp only [AppendPcapRec, File.Append, List.length_append, List.length_map, List.length_range]
    rfl
  refine ⟨hbytes, hostBytes32_length _ _, hostBytes32_length _ _, hostBytes32_length _ _,
    hostBytes32_length _ _, range_map_getD_eq_take _ _, hsize, ?_⟩
  intro hlt
  rw [hsize]
  omega

/-- C10, at an instance: a record with 60 captured bytes adds 76 bytes to the file, the last
60 of them being its payload. -/
theorem AppendPcapRec_bytes_witness :
    (List.range 60).map (fun i => (sampleRec 1700000000 5 2).packet_buffer.getD i 0)
        = List.replicate 60 2
      ∧ (AppendPcapRec sampleEnv {} (sampleRec 1700000000 5 2)).gPcapOutFile.length
        < 0 + (16 + 2048) :=
  ⟨((AppendPcapRec_bytes sampleEnv {} (sampleRec 1700000000 5 2)).2.2.2.2.2.1 (by decide)).trans
      (by decide),
   (AppendPcapRec_bytes sampleEnv {} (sampleRec 1700000000 5 2)).2.2.2.2.2.2.2 (by decide)⟩

/-! ## The file header at start-up -/

/-- C11: when the output file opens and its size is obtained, the start-up code appends the
global header exactly when the size is zero and leaves a non-empty file as it is; the header is
24 bytes: magic `0xa1b23c4d`, version 2.4, zone 0, accuracy 0, snapshot length 2048, link type
1, each field in host byte order; a file that holds a header from an earlier run, whatever
follows it, is left unchanged; and no outcome of the library calls makes the code append
anything but this header to an empty file. -/
theorem mainOpenOutFile_header (env : Env) (fileSize : Nat) (file : List Nat) :
    mainOpenOutFile env true (some fileSize) true file
        = OpenResult.opened
            (if fileSize = 0 then file ++ kPcapHhdr.memory env.hostBigEndian else file)
      ∧ (kPcapHhdr.memory env.hostBigEndian).length = 24
      ∧ kPcapHhdr.memory env.hostBigEndian
          = hostBytes32 env.hostBigEndian 0xa1b23c4d ++ hostBytes16 env.hostBigEndian 2
            ++ hostBytes16 env.hostBigEndian 4 ++ hostBytes32 env.hostBigEndian 0
            ++ hostBytes32 env.hostBigEndian 0 ++ hostBytes32 env.hostBigEndian 2048
            ++ hostBytes32 env.hostBigEndian 1
      ∧ kPcapHhdr.memory false
          = [0x4d, 0x3c, 0xb2, 0xa1, 2, 0, 4, 0, 0, 0, 0, 0, 0, 0, 0, 0, 0, 8, 0, 0, 1, 0, 0, 0]
      ∧ (∀ more : List Nat,
          mainOpenOutFile env true
              (some (file ++ kPcapHhdr.memory env.hostBigEndian ++ more).length) true
              (file ++ kPcapHhdr.memory env.hostBigEndian ++ more)
            = OpenResult.opened (file ++ kPcapHhdr.memory env.hostBigEndian ++ more))
      ∧ (∀ (openOk appendOk : Bool) (sizeRes : Option Nat) (out : List Nat),
          mainOpenOutFile env openOk sizeRes appendOk file = OpenResult.opened out →
            (sizeRes = some 0 ∧ out = file ++ kPcapHhdr.memory env.hostBigEndian)
              ∨ (sizeRes ≠ some 0 ∧ out = file)) := by
  have hlen : (kPcapHhdr.memory env.hostBigEndian).length = 24 := by
    cases env.hostBigEndian <;> rfl
  have happ : File.Append file (kPcapHhdr.memory env.hostBigEndian) kPcapHdrSize
      = file ++ kPcapHhdr.memory env.hostBigEndian := by
    unfold File.Append
    rw [range_map_getD_eq_take _ _ (by rw [hlen]; decide)]
    have : kPcapHdrSize = (kPcapHhdr.memory env.hostBigEndian).length := by rw [hlen]; rfl
    rw [this, List.take_length]
  refine ⟨?_, hlen, ?_, by decide, ?_, ?_⟩
  · by_cases h0 : fileSize = 0
    · simp only [mainOpenOutFile, h0, if_true, happ]
    · simp only [mainOpenOutFile, h0, if_true, if_false]
  · cases env.hostBigEndian <;> rfl
  · intro more
    have hne : ¬ (file ++ kPcapHhdr.memory env.hostBigEndian ++ more).length = 0 := by
      simp only [List.length_append, hlen]
      omega
    simp only [mainOpenOutFile, hne, if_true, if_false]
  · intro openOk appendOk sizeRes out hres
    unfold mainOpenOutFile at hres
    cases openOk with
    | false => simp at hres
    | true =>
      cases sizeRes with
      | none => simp at hres
      | some size =>
        by_cases h0 : size = 0
        · subst h0
          cases appendOk with
          | false => simp at hres
          | true =>
            simp only [if_true, happ, OpenResult.opened.injEq] at hres
            exact Or.inl ⟨rfl, hres.symm⟩
        · simp only [if_true, h0, if_false, OpenResult.opened.injEq] at hres
          refine Or.inr ⟨?_, hres.symm⟩
          intro h
          exact h0 (Option.some.inj h)

/-! ## Frames that are not yet complete -/

/-- C12: when fewer than 16 bytes are buffered, or the peeked header is of valid size and
fewer than `16 + PkBytes_` bytes are buffered, the loop of `OnDevice_Recv` stops at that
iteration and the queue is exactly what it was; the session it leaves agrees with the one
before on the container, the anchor, `PcapCount_` and every other field but the expected
sequence number and the log, which the sequence check may have touched; `OnDevice_Recv` as a
whole returns the unchanged queue and has only counted the receive event. -/
theorem recvLoop_incomplete (env : Env) (s : Session) (rxbuf : DcQueue)
    (hstop : rxbuf.length < 16
      ∨ (16 ≤ rxbuf.length ∧ 60 ≤ (peekedHdr rxbuf).PkBytes_ ∧ (peekedHdr rxbuf).PkBytes_ < 2048
          ∧ rxbuf.length < 16 + (peekedHdr rxbuf).PkBytes_)) :
    ((recvStep env s rxbuf).branch = Branch.noHeader
        ∨ (recvStep env s rxbuf).branch = Branch.incomplete)
      ∧ (∀ fuel, ∃ s1, recvLoop env (fuel + 1) s rxbuf = some (s1, rxbuf)
          ∧ SameRecords s1 s ∧ s1.RxEvCount_ = s.RxEvCount_
          ∧ (env.gIsCheckLost = false → s1 = s))
      ∧ ∃ s1, OnDevice_Recv env s rxbuf = some (s1, rxbuf)
          ∧ s1.gPcapList = s.gPcapList
          ∧ s1.g1stPkTickClkN = s.g1stPkTickClkN
          ∧ s1.g1stPkTimeStampNS = s.g1stPkTimeStampNS
          ∧ s1.PcapCount_ = s.PcapCount_
          ∧ s1.gLastRxNS = s.gLastRxNS
          ∧ s1.RxEvCount_ = u64 (s.RxEvCount_ + 1) := by
  have hstep : ∀ t : Session,
      ((recvStep env t rxbuf).branch = Branch.noHeader
          ∨ (recvStep env t rxbuf).branch = Branch.incomplete)
        ∧ (recvStep env t rxbuf).rxbuf = rxbuf
        ∧ SameRecords (recvStep env t rxbuf).ses t
        ∧ (env.gIsCheckLost = false → (recvStep env t rxbuf).ses = t) := by
    intro t
    rcases hstop with hlt | ⟨hge, h60, hmax, hshort⟩
    · rw [recvStep_noHeader env t rxbuf hlt]
      exact ⟨Or.inl rfl, rfl, SameRecords.refl t, fun _ => rfl⟩
    · have hok : ¬ ((peekedHdr rxbuf).PkBytes_ < 60 ∨ kMAX_PK_SIZE ≤ (peekedHdr rxbuf).PkBytes_) := by
        have : kMAX_PK_SIZE = 2048 := rfl
        omega
      rw [recvStep_incomplete env t rxbuf hge hok hshort]
      exact ⟨Or.inr rfl, rfl, checkLost_SameRecords env t _, fun hoff => checkLost_off env t _ hoff⟩
  refine ⟨(hstep s).1, ?_, ?_⟩
  · intro fuel
    obtain ⟨hb, hq, hsame, hoff⟩ := hstep s
    refine ⟨(recvStep env s rxbuf).ses, ?_, hsame, recvStep_RxEvCount env s rxbuf, hoff⟩
    rw [recvLoop_stop env fuel s rxbuf hb, hq]
  · obtain ⟨hb, hq, hsame, -⟩ := hstep { s with RxEvCount_ := u64 (s.RxEvCount_ + 1) }
    refine ⟨(recvStep env { s with RxEvCount_ := u64 (s.RxEvCount_ + 1) } rxbuf).ses, ?_,
      hsame.2.2.2.2.2.1, hsame.2.1, hsame.1, hsame.2.2.2.2.1, hsame.2.2.1,
      recvStep_RxEvCount env _ rxbuf⟩
    unfold OnDevice_Recv
    rw [recvLoop_stop env rxbuf.length _ rxbuf hb, hq]

/-- C12, at instances: the first 40 bytes of a 76-byte frame, and a queue of 3 bytes, are
left in the queue and no record is inserted. -/
theorem recvLoop_incomplete_witness :
    (∃ s1, OnDevice_Recv sampleEnv {} ((sampleFrame 7 60 0 0).take 40)
        = some (s1, (sampleFrame 7 60 0 0).take 40) ∧ s1.gPcapList = [])
      ∧ (∃ s1, OnDevice_Recv sampleEnv {} [1, 2, 3] = some (s1, [1, 2, 3]) ∧ s1.gPcapList = []) :=
  ⟨(recvLoop_incomplete sampleEnv {} ((sampleFrame 7 60 0 0).take 40)
      (Or.inr (by decide))).2.2.imp (fun _ h => ⟨h.1, h.2.1⟩),
   (recvLoop_incomplete sampleEnv {} [1, 2, 3] (Or.inl (by decide))).2.2.imp
      (fun _ h => ⟨h.1, h.2.1⟩)⟩

/-! ## Loss checking does not interfere -/

/-- C13: for every session and every queue content, `OnDevice_Recv` with loss checking
enabled and with it disabled both return, with the same queue left (the same bytes consumed),
the same container of inserted records, the same anchor, the same counters `PcapCount_` and
`RxEvCount_`, the same `gLastRxNS` and the same file state; they can differ only in
`gPkSeqNext` and in the log. -/
theorem OnDevice_Recv_checkLost_noninterference (env : Env) (s : Session) (rxbuf : DcQueue) :
    ∃ r1 r2, OnDevice_Recv { env with gIsCheckLost := true } s rxbuf = some r1
      ∧ OnDevice_Recv { env with gIsCheckLost := false } s rxbuf = some r2
      ∧ r1.2 = r2.2
      ∧ r1.1.gPcapList = r2.1.gPcapList
      ∧ r1.1.g1stPkTickClkN = r2.1.g1stPkTickClkN
      ∧ r1.1.g1stPkTimeStampNS = r2.1.g1stPkTimeStampNS
      ∧ r1.1.PcapCount_ = r2.1.PcapCount_
      ∧ r1.1.RxEvCount_ = r2.1.RxEvCount_
      ∧ r1.1.gLastRxNS = r2.1.gLastRxNS
      ∧ r1.1.gLastAppNS = r2.1.gLastAppNS
      ∧ r1.1.gPcapOutFile = r2.1.gPcapOutFile
      ∧ r1.1.appended = r2.1.appended
      ∧ r1.1.clockReads = r2.1.clockReads := by
  obtain ⟨r1, hr1, -⟩ := recvLoop_fuel { env with gIsCheckLost := true } (rxbuf.length + 1)
    { s with RxEvCount_ := u64 (s.RxEvCount_ + 1) } rxbuf (Nat.lt_succ_self _)
  obtain ⟨r2, hr2, hq, hsame⟩ := recvLoop_SameRecords { env with gIsCheckLost := true }
    { env with gIsCheckLost := false } rfl (rxbuf.length + 1) _ _ rxbuf r1
    (SameRecords.refl { s with RxEvCount_ := u64 (s.RxEvCount_ + 1) }) hr1
  have hx1 := recvLoop_RxEvCount _ _ _ _ r1 hr1
  have hx2 := recvLoop_RxEvCount _ _ _ _ r2 hr2
  obtain ⟨h1, h2, h3, h4, h5, h6, h7, h8, h9⟩ := hsame
  exact ⟨r1, r2, hr1, hr2, hq, h6, h2, h1, h5, hx1.trans hx2.symm, h3, h4, h7, h8, h9⟩

/-! ## Decoding the frame header -/

/-- C14: for every sixteen header bytes `b0 .. b15` at the head of the queue, the parser
peeks exactly these 16 bytes and reads the tick as the little-endian 64-bit value of
`b0 .. b7`, `PkBytes_` as the little-endian 32-bit value of `b8 .. b11`, `PkBadCount_` as the
little-endian 16-bit value of `b12 .. b13`, and the sequence number from `b14` and `b15` in the
byte order of the host. -/
theorem AdjustEndian_decode (b0 b1 b2 b3 b4 b5 b6 b7 b8 b9 b10 b11 b12 b13 b14 b15 : Nat)
    (rest : List Nat)
    (hbytes : ∀ b ∈ [b0, b1, b2, b3, b4, b5, b6, b7, b8, b9, b10, b11, b12, b13, b14, b15],
      b < 256) :
    kPkHdrSize = 16
      ∧ DcQueue.Peek
          ([b0, b1, b2, b3, b4, b5, b6, b7, b8, b9, b10, b11, b12, b13, b14, b15] ++ rest)
          kPkHdrSize
        = some [b0, b1, b2, b3, b4, b5, b6, b7, b8, b9, b10, b11, b12, b13, b14, b15]
      ∧ (peekedHdr
          ([b0, b1, b2, b3, b4, b5, b6, b7, b8, b9, b10, b11, b12, b13, b14, b15] ++ rest)).TTS_
        = b0 + 256 * b1 + 256 ^ 2 * b2 + 256 ^ 3 * b3 + 256 ^ 4 * b4 + 256 ^ 5 * b5
          + 256 ^ 6 * b6 + 256 ^ 7 * b7
      ∧ (peekedHdr
          ([b0, b1, b2, b3, b4, b5, b6, b7, b8, b9, b10, b11, b12, b13, b14, b15]
            ++ rest)).PkBytes_
        = b8 + 256 * b9 + 256 ^ 2 * b10 + 256 ^ 3 * b11
      ∧ (peekedHdr
          ([b0, b1, b2, b3, b4, b5, b6, b7, b8, b9, b10, b11, b12, b13, b14, b15]
            ++ rest)).PkBadCount_
        = b12 + 256 * b13
      ∧ (peekedHdr
          ([b0, b1, b2, b3, b4, b5, b6, b7, b8, b9, b10, b11, b12, b13, b14, b15]
            ++ rest)).Padding2b_
        = [b14, b15]
      ∧ hostValue false [b14, b15] = b14 + 256 * b15
      ∧ hostValue true [b14, b15] = 256 * b14 + b15 := by
  have h0 := hbytes b0 (by simp)
  have h1 := hbytes b1 (by simp)
  have h2 := hbytes b2 (by simp)
  have h3 := hbytes b3 (by simp)
  have h4 := hbytes b4 (by simp)
  have h5 := hbytes b5 (by simp)
  have h6 := hbytes b6 (by simp)
  have h7 := hbytes b7 (by simp)
  have h8 := hbytes b8 (by simp)
  have h9 := hbytes b9 (by simp)
  have h10 := hbytes b10 (by simp)
  have h11 := hbytes b11 (by simp)
  have h12 := hbytes b12 (by simp)
  have h13 := hbytes b13 (by simp)
  have h14 := hbytes b14 (by simp)
  have h15 := hbytes b15 (by simp)
  refine ⟨rfl, ?_, ?_, ?_, ?_, ?_, ?_, ?_⟩
  · simp [DcQueue.Peek, kPkHdrSize]
  · simp only [peekedHdr, AdjustEndian, kPkHdrSize, List.take, List.cons_append, GetLittleEndian,
      List.foldr, Nat.mod_eq_of_lt h0, Nat.mod_eq_of_lt h1, Nat.mod_eq_of_lt h2,
      Nat.mod_eq_of_lt h3, Nat.mod_eq_of_lt h4, Nat.mod_eq_of_lt h5, Nat.mod_eq_of_lt h6,
      Nat.mod_eq_of_lt h7]
    omega
  · simp only [peekedHdr, AdjustEndian, kPkHdrSize, List.take, List.drop, List.cons_append,
      GetLittleEndian, List.foldr, Nat.mod_eq_of_lt h8, Nat.mod_eq_of_lt h9,
      Nat.mod_eq_of_lt h10, Nat.mod_eq_of_lt h11]
    omega
  · simp only [peekedHdr, AdjustEndian, kPkHdrSize, List.take, List.drop, List.cons_append,
      GetLittleEndian, List.foldr, Nat.mod_eq_of_lt h12, Nat.mod_eq_of_lt h13]
    omega
  · simp only [peekedHdr, AdjustEndian, kPkHdrSize, List.take, List.drop, List.cons_append]
  · simp only [hostValue, GetLittleEndian, List.foldr, Nat.mod_eq_of_lt h14,
      Nat.mod_eq_of_lt h15, Bool.false_eq_true, if_false]
    omega
  · simp only [hostValue, GetLittleEndian, List.reverse_cons, List.reverse_nil, List.nil_append,
      List.cons_append, List.foldr, Nat.mod_eq_of_lt h14, Nat.mod_eq_of_lt h15, if_true]
    omega

/-- C14, at an instance: the header bytes of a frame with tick `0x0807060504030201`, 60
payload bytes, bad-packet counter `0x0201` and sequence bytes `08 00`. -/
theorem AdjustEndian_decode_witness :
    (peekedHdr ([1, 2, 3, 4, 5, 6, 7, 8, 60, 0, 0, 0, 1, 2, 8, 0] ++ [9, 9])).TTS_
        = 1 + 256 * 2 + 256 ^ 2 * 3 + 256 ^ 3 * 4 + 256 ^ 4 * 5 + 256 ^ 5 * 6
          + 256 ^ 6 * 7 + 256 ^ 7 * 8
      ∧ (peekedHdr ([1, 2, 3, 4, 5, 6, 7, 8, 60, 0, 0, 0, 1, 2, 8, 0] ++ [9, 9])).PkBytes_
        = 60 + 256 * 0 + 256 ^ 2 * 0 + 256 ^ 3 * 0 :=
  ⟨(AdjustEndian_decode 1 2 3 4 5 6 7 8 60 0 0 0 1 2 8 0 [9, 9] (by decide)).2.2.1,
   (AdjustEndian_decode 1 2 3 4 5 6 7 8 60 0 0 0 1 2 8 0 [9, 9] (by decide)).2.2.2.1⟩

/-! ## The record built for an accepted frame -/

/-- C15: an iteration that accepts a frame stores the reconstructed timestamp `ts` in
`gLastRxNS` and inserts one record with `ts_sec = (ts / 10 ^ 9) mod 2 ^ 32`,
`ts_xsec = ts mod 10 ^ 9`, `incl_len = orig_len = PkBytes_` and the `PkBytes_` payload bytes of
the frame; the frame is consumed whole and `PcapCount_` grows by one; and when
`ts / 10 ^ 9 < 2 ^ 32` the record satisfies `ts_sec * 10 ^ 9 + ts_xsec = ts`, which is also the
value `AppendPcapRec` stores in `gLastAppNS` for it. -/
theorem recvStep_accepted_record (env : Env) (s : Session) (rxbuf : DcQueue)
    (hacc : (recvStep env s rxbuf).branch = Branch.accepted) :
    ∃ prec : PcapFileRec,
      (recvStep env s rxbuf).ses.gPcapList = PcapListImpl.insert prec s.gPcapList
        ∧ (recvStep env s rxbuf).ses.gLastRxNS
            = CalcPkTimeStampNS (recvStep env s rxbuf).ses (peekedHdr rxbuf)
        ∧ prec.ts_sec = ((recvStep env s rxbuf).ses.gLastRxNS / 10 ^ 9) % 2 ^ 32
        ∧ prec.ts_xsec = (recvStep env s rxbuf).ses.gLastRxNS % 10 ^ 9
        ∧ prec.incl_len = (peekedHdr rxbuf).PkBytes_
        ∧ prec.orig_len = (peekedHdr rxbuf).PkBytes_
        ∧ prec.packet_buffer = (rxbuf.drop 16).take (peekedHdr rxbuf).PkBytes_
        ∧ prec.packet_buffer.length = (peekedHdr rxbuf).PkBytes_
        ∧ (recvStep env s rxbuf).rxbuf = rxbuf.drop (16 + (peekedHdr rxbuf).PkBytes_)
        ∧ (recvStep env s rxbuf).ses.PcapCount_ = (s.PcapCount_ + 1) % 2 ^ 64
        ∧ ((recvStep env s rxbuf).ses.gLastRxNS / 10 ^ 9 < 2 ^ 32 →
            prec.ts_sec * 10 ^ 9 + prec.ts_xsec = (recvStep env s rxbuf).ses.gLastRxNS
              ∧ ∀ s2 : Session,
                  (AppendPcapRec env s2 prec).gLastAppNS
                    = (recvStep env s rxbuf).ses.gLastRxNS) := by
  obtain ⟨hp, h60, hmax, hfull, t, hstep, hlist, hcount, -⟩ := recvStep_accepted env s rxbuf hacc
  have hk : kPkHdrSize = 16 := rfl
  have hd : kDivisorNS = 10 ^ 9 := by decide
  have hts : CalcPkTimeStampNS t (peekedHdr rxbuf) < 2 ^ 64 := by
    unfold CalcPkTimeStampNS u64add u64
    exact Nat.mod_lt _ (by decide)
  have hx : u32 (CalcPkTimeStampNS t (peekedHdr rxbuf) % 10 ^ 9)
      = CalcPkTimeStampNS t (peekedHdr rxbuf) % 10 ^ 9 := by
    have : CalcPkTimeStampNS t (peekedHdr rxbuf) % 10 ^ 9 < 10 ^ 9 := Nat.mod_lt _ (by decide)
    unfold u32
    omega
  rw [hstep, buildRec_eq]
  refine ⟨builtRec t (peekedHdr rxbuf) (rxbuf.drop kPkHdrSize), ?_, rfl, ?_, ?_, rfl, rfl, ?_, ?_,
    ?_, ?_, ?_⟩
  · show PcapListImpl.insert _ t.gPcapList = _
    rw [hlist]
  · show u32 (CalcPkTimeStampNS t (peekedHdr rxbuf) / kDivisorNS) = _
    rw [hd]
    rfl
  · show u32 (CalcPkTimeStampNS t (peekedHdr rxbuf) % kDivisorNS) = _
    rw [hd]
    exact hx
  · rw [hk]
    rfl
  · show ((rxbuf.drop kPkHdrSize).take (peekedHdr rxbuf).PkBytes_).length = _
    rw [List.length_take, List.length_drop]
    omega
  · show (rxbuf.drop kPkHdrSize).drop (peekedHdr rxbuf).PkBytes_ = _
    rw [List.drop_drop, hk]
  · show u64 (t.PcapCount_ + 1) = _
    rw [hcount]
    rfl
  · intro hfit
    change CalcPkTimeStampNS t (peekedHdr rxbuf) / 10 ^ 9 < 2 ^ 32 at hfit
    have hsec : u32 (CalcPkTimeStampNS t (peekedHdr rxbuf) / kDivisorNS)
        = CalcPkTimeStampNS t (peekedHdr rxbuf) / 10 ^ 9 := by
      rw [hd]
      exact Nat.mod_eq_of_lt hfit
    have hxs : u32 (CalcPkTimeStampNS t (peekedHdr rxbuf) % kDivisorNS)
        = CalcPkTimeStampNS t (peekedHdr rxbuf) % 10 ^ 9 := by
      rw [hd]
      exact hx
    have hsum : CalcPkTimeStampNS t (peekedHdr rxbuf) / 10 ^ 9 * 10 ^ 9
        + CalcPkTimeStampNS t (peekedHdr rxbuf) % 10 ^ 9
          = CalcPkTimeStampNS t (peekedHdr rxbuf) := Nat.div_add_mod' _ _
    refine ⟨?_, ?_⟩
    · show u32 (CalcPkTimeStampNS t (peekedHdr rxbuf) / kDivisorNS) * 10 ^ 9
          + u32 (CalcPkTimeStampNS t (peekedHdr rxbuf) % kDivisorNS) = _
      rw [hsec, hxs]
      exact hsum
    · intro s2
      show u64 (u32 (CalcPkTimeStampNS t (peekedHdr rxbuf) / kDivisorNS) * kDivisorNS
          + u32 (CalcPkTimeStampNS t (peekedHdr rxbuf) % kDivisorNS)) = _
      rw [hsec, hxs, hd, hsum]
      exact Nat.mod_eq_of_lt hts

/-- C15, at an instance: with the anchor at tick 1000 and 1700000000000000000 ns, a frame with
tick 2000 and 60 payload bytes is accepted and `gLastRxNS` becomes 1700000000000006400. -/
theorem recvStep_accepted_record_witness :
    (recvStep sampleEnv (sampleAnchored 0) (sampleFrame 2000 60 0 5)).ses.gLastRxNS
        = 1700000000000006400
      ∧ ∃ prec : PcapFileRec,
        (recvStep sampleEnv (sampleAnchored 0) (sampleFrame 2000 60 0 5)).ses.gPcapList
            = PcapListImpl.insert prec (sampleAnchored 0).gPcapList
          ∧ prec.ts_sec
            = ((recvStep sampleEnv (sampleAnchored 0) (sampleFrame 2000 60 0 5)).ses.gLastRxNS
                / 10 ^ 9) % 2 ^ 32 :=
  ⟨by decide,
   (recvStep_accepted_record sampleEnv (sampleAnchored 0) (sampleFrame 2000 60 0 5)
      (by decide)).imp (fun _ h => ⟨h.1, h.2.2.1⟩)⟩

/-! ## Termination of the two loops -/

/-- C16: the loop of `OnDevice_Recv` ends for every queue content: an iteration either ends
the loop or removes at least 16 bytes, so `OnDevice_Recv` returns, with the same result for
every bound above the number of buffered bytes; and the loop of `OnDevice_CommonTimer` ends
for every container: an iteration ends the loop exactly when the container is empty or the
cutoff is less than its first record, and otherwise removes one record, so the drain returns,
with the same result for every bound above the number of queued records. -/
theorem loops_terminate (env : Env) :
    (∀ (s : Session) (rxbuf : DcQueue),
        (recvStep env s rxbuf).branch = Branch.noHeader
          ∨ (recvStep env s rxbuf).branch = Branch.incomplete
          ∨ (recvStep env s rxbuf).rxbuf.length + 16 ≤ rxbuf.length)
      ∧ (∀ (s : Session) (rxbuf : DcQueue), ∃ r, OnDevice_Recv env s rxbuf = some r
          ∧ ∀ fuel, rxbuf.length < fuel →
              recvLoop env fuel { s with RxEvCount_ := u64 (s.RxEvCount_ + 1) } rxbuf = some r)
      ∧ (∀ (cutoff : PcapFileRecHdr) (s : Session),
          timerStep env cutoff s = none ↔
            (s.gPcapList = []
              ∨ ∃ r rest, s.gPcapList = r :: rest ∧ cutoff.lt r.toPcapFileRecHdr = true))
      ∧ (∀ (cutoff : PcapFileRecHdr) (s : Session),
          timerStep env cutoff s = none
            ∨ ∃ s1, timerStep env cutoff s = some s1
                ∧ s1.gPcapList.length + 1 = s.gPcapList.length)
      ∧ (∀ (bfns : Nat) (s : Session), ∃ s1, OnDevice_CommonTimer env bfns s = some s1
          ∧ ∀ fuel, s.gPcapList.length < fuel →
              timerLoop env (flushBf bfns) fuel s = some s1) := by
  refine ⟨?_, ?_, ?_, ?_, ?_⟩
  · intro s rxbuf
    by_cases hn : (recvStep env s rxbuf).branch = Branch.noHeader
    · exact Or.inl hn
    · by_cases hi : (recvStep env s rxbuf).branch = Branch.incomplete
      · exact Or.inr (Or.inl hi)
      · exact Or.inr (Or.inr (recvStep_consumes env s rxbuf hn hi))
  · intro s rxbuf
    obtain ⟨r, hr, hall⟩ := recvLoop_fuel env (rxbuf.length + 1)
      { s with RxEvCount_ := u64 (s.RxEvCount_ + 1) } rxbuf (Nat.lt_succ_self _)
    exact ⟨r, hr, hall⟩
  · intro cutoff s
    unfold timerStep
    cases hl : s.gPcapList with
    | nil => simp
    | cons r rest =>
      by_cases hlt : cutoff.lt r.toPcapFileRecHdr = true
      · simp [hlt]
      · simp [hlt]
  · intro cutoff s
    unfold timerStep
    cases hl : s.gPcapList with
    | nil => exact Or.inl rfl
    | cons r rest =>
      by_cases hlt : cutoff.lt r.toPcapFileRecHdr = true
      · left; simp [hlt]
      · right
        refine ⟨AppendPcapRec env { s with gPcapList := rest } r, by simp [hlt], ?_⟩
        simp [AppendPcapRec]
  · intro bfns s
    refine ⟨_, timerLoop_eq env (flushBf bfns) _ s (Nat.lt_succ_self _), ?_⟩
    intro fuel hf
    exact timerLoop_eq env (flushBf bfns) fuel s hf

/-! ## Bounds of the queued and appended records -/

/-- C17: an iteration of `OnDevice_Recv` inserts at most one record, and a record it inserts
satisfies `60 ≤ incl_len < 2048`, `orig_len = incl_len`, `ts_xsec < 10 ^ 9` and holds
`incl_len` payload bytes; hence, from the initial session and for every sequence of receive
events, periodic drains and forced drains, every queued record and every record passed to
`AppendPcapRec` satisfies these bounds, its append length `16 + incl_len` does not exceed
`16 + 2048`, and the append reads no byte past the stored payload. -/
theorem runEvents_record_bounds (env : Env) :
    (∀ (s : Session) (rxbuf : DcQueue),
        (recvStep env s rxbuf).ses.gPcapList = s.gPcapList
          ∨ ∃ prec, (recvStep env s rxbuf).ses.gPcapList = PcapListImpl.insert prec s.gPcapList
              ∧ 60 ≤ prec.incl_len ∧ prec.incl_len < 2048 ∧ prec.orig_len = prec.incl_len
              ∧ prec.ts_xsec < 10 ^ 9 ∧ prec.packet_buffer.length = prec.incl_len)
      ∧ ∀ evs : List Event, ∃ st, runEvents env ({}, []) evs = some st
          ∧ ∀ r, (r ∈ st.1.gPcapList ∨ r ∈ st.1.appended) →
              60 ≤ r.incl_len ∧ r.incl_len < 2048 ∧ r.orig_len = r.incl_len
                ∧ r.ts_xsec < 10 ^ 9
                ∧ kRecHdrSize + r.incl_len ≤ 16 + 2048
                ∧ r.incl_len ≤ r.packet_buffer.length := by
  have hk : kMAX_PK_SIZE = 2048 := rfl
  have hr : kRecHdrSize = 16 := rfl
  refine ⟨?_, ?_⟩
  · intro s rxbuf
    rcases (recvStep_inserts env s rxbuf).2 with h | ⟨prec, h, hok⟩
    · exact Or.inl h
    · obtain ⟨h1, h2, h3, h4, h5⟩ := hok
      exact Or.inr ⟨prec, h, h1, by omega, h3, by omega, h5⟩
  · intro evs
    have h0 : BufferOk ({} : Session) :=
      ⟨fun r hr => absurd hr (List.not_mem_nil r), fun r hr => absurd hr (List.not_mem_nil r)⟩
    obtain ⟨st, hst, hok⟩ := runEvents_BufferOk env evs ({}, []) h0
    refine ⟨st, hst, ?_⟩
    intro r hmem
    have hrec : RecOk r := by
      rcases hmem with h | h
      · exact hok.1 r h
      · exact hok.2 r h
    obtain ⟨h1, h2, h3, h4, h5⟩ := hrec
    exact ⟨h1, by omega, h3, by omega, by omega, by omega⟩

/-! ## The periodic drain as a partition -/

/-- C19: for every container content, which is in non-decreasing key order, and every cutoff
key `c`, `OnDevice_CommonTimer` returns, appends exactly the queued records with `¬ c < key`,
in non-decreasing key order, and leaves exactly the queued records with `c < key`; appended
and remaining records together are a permutation of the container before the drain, and no
remaining record is less than an appended one. -/
theorem OnDevice_CommonTimer_partition (env : Env) (bfns : Nat) (s : Session)
    (hsorted : NonDecreasing s.gPcapList) :
    ∃ s1, OnDevice_CommonTimer env bfns s = some s1
      ∧ s1.appended
          = s.appended ++ s.gPcapList.filter (fun r => !(flushBf bfns).lt r.toPcapFileRecHdr)
      ∧ s1.gPcapList = s.gPcapList.filter (fun r => (flushBf bfns).lt r.toPcapFileRecHdr)
      ∧ NonDecreasing (s.gPcapList.filter (fun r => !(flushBf bfns).lt r.toPcapFileRecHdr))
      ∧ (s.gPcapList.filter (fun r => !(flushBf bfns).lt r.toPcapFileRecHdr)
          ++ s1.gPcapList).Perm s.gPcapList
      ∧ ∀ a ∈ s.gPcapList.filter (fun r => !(flushBf bfns).lt r.toPcapFileRecHdr),
          ∀ b ∈ s1.gPcapList, b.lt a = false := by
  obtain ⟨e1, e2⟩ := takeWhile_eq_filter_of_nonDecreasing (flushBf bfns) s.gPcapList hsorted
  obtain ⟨h1, h2, -⟩ := foldl_AppendPcapRec env
    (s.gPcapList.takeWhile (fun r => !(flushBf bfns).lt r.toPcapFileRecHdr))
    { s with gPcapList :=
        s.gPcapList.dropWhile (fun r => !(flushBf bfns).lt r.toPcapFileRecHdr) }
  have h2b : (List.foldl (AppendPcapRec env)
      { s with gPcapList :=
          s.gPcapList.dropWhile (fun r => !(flushBf bfns).lt r.toPcapFileRecHdr) }
      (s.gPcapList.takeWhile (fun r => !(flushBf bfns).lt r.toPcapFileRecHdr))).gPcapList
        = s.gPcapList.filter (fun r => (flushBf bfns).lt r.toPcapFileRecHdr) := by
    rw [h2]
    exact e2
  have hsplit : s.gPcapList.filter (fun r => !(flushBf bfns).lt r.toPcapFileRecHdr)
      ++ s.gPcapList.filter (fun r => (flushBf bfns).lt r.toPcapFileRecHdr) = s.gPcapList := by
    rw [← e1, ← e2]
    exact List.takeWhile_append_dropWhile _ _
  refine ⟨_, timerLoop_eq env (flushBf bfns) _ s (Nat.lt_succ_self _),
    h1.trans (by rw [e1]), h2b, ?_, ?_, ?_⟩
  · exact List.Pairwise.sublist (List.filter_sublist _) hsorted
  · rw [h2b, hsplit]
  · rw [h2b]
    intro a ha b hb
    have hs := hsorted
    unfold NonDecreasing at hs
    rw [← hsplit, List.pairwise_append] at hs
    exact hs.2.2 a ha b hb

/-- C19, at an instance: of three queued records stamped 5, 6 and 7 ns after 1700000000 s, a
drain with the cutoff at 6 ns appends the first two and leaves the third. -/
theorem OnDevice_CommonTimer_partition_witness :
    ∃ s1, OnDevice_CommonTimer sampleEnv 1700000000000000006
        { gPcapList := [sampleRec 1700000000 5 2, sampleRec 1700000000 6 3,
            sampleRec 1700000000 7 1] } = some s1
      ∧ s1.appended = [sampleRec 1700000000 5 2, sampleRec 1700000000 6 3]
      ∧ s1.gPcapList = [sampleRec 1700000000 7 1] :=
  (OnDevice_CommonTimer_partition sampleEnv 1700000000000000006
      { gPcapList := [sampleRec 1700000000 5 2, sampleRec 1700000000 6 3,
          sampleRec 1700000000 7 1] }
      (by unfold NonDecreasing; decide)).imp
    (fun _ h => ⟨h.1, h.2.1.trans (by decide), h.2.2.1.trans (by decide)⟩)

/-! ## Tick order and key order -/

/-- C20: for a fixed anchor `(a, w)` and ticks `a ≤ t1 ≤ t2`, when `(t2 - a) * 64` and
`w + ((t2 - a) * 64) / 10` fit in 64 bits and the seconds of the latter fit in 32 bits, the
reconstructed timestamp for `t1` is not above the one for `t2`, and the record built for `t2`
is not less, under `operator<`, than the record built for `t1`; these are the records the end
of the loop body inserts. -/
theorem builtRec_key_monotone (s : Session) (h1 h2 : f9epbc_RxPkHeader) (rx1 rx2 : DcQueue)
    (ha : s.g1stPkTickClkN ≤ h1.TTS_) (h12 : h1.TTS_ ≤ h2.TTS_)
    (hmul : (h2.TTS_ - s.g1stPkTickClkN) * 64 < 2 ^ 64)
    (hsum : s.g1stPkTimeStampNS + (h2.TTS_ - s.g1stPkTickClkN) * 64 / 10 < 2 ^ 64)
    (hsec : (s.g1stPkTimeStampNS + (h2.TTS_ - s.g1stPkTickClkN) * 64 / 10) / 10 ^ 9 < 2 ^ 32) :
    CalcPkTimeStampNS s h1 ≤ CalcPkTimeStampNS s h2
      ∧ (builtRec s h2 rx2).lt (builtRec s h1 rx1) = false
      ∧ (buildRec s h1 rx1).ses.gPcapList = PcapListImpl.insert (builtRec s h1 rx1) s.gPcapList
      ∧ (buildRec s h2 rx2).ses.gPcapList
          = PcapListImpl.insert (builtRec s h2 rx2) s.gPcapList := by
  have hd : (h1.TTS_ - s.g1stPkTickClkN) * 64 / 10 ≤ (h2.TTS_ - s.g1stPkTickClkN) * 64 / 10 :=
    Nat.div_le_div_right (Nat.mul_le_mul_right 64 (Nat.sub_le_sub_right h12 _))
  have e2 := CalcPkTimeStampNS_exact s h2 (Nat.le_trans ha h12) hmul hsum
  have e1 := CalcPkTimeStampNS_exact s h1 ha (by omega) (by omega)
  have hle : CalcPkTimeStampNS s h1 ≤ CalcPkTimeStampNS s h2 := by rw [e1, e2]; omega
  have hs2 : CalcPkTimeStampNS s h2 / 10 ^ 9 < 2 ^ 32 := by rw [e2]; exact hsec
  refine ⟨hle, ?_, rfl, rfl⟩
  show PcapFileRecHdr.lt (builtRec s h2 rx2).toPcapFileRecHdr (builtRec s h1 rx1).toPcapFileRecHdr
    = false
  rw [PcapFileRecHdr.lt_eq_false_iff]
  show u32 (CalcPkTimeStampNS s h1 / kDivisorNS) < u32 (CalcPkTimeStampNS s h2 / kDivisorNS)
    ∨ (u32 (CalcPkTimeStampNS s h2 / kDivisorNS) = u32 (CalcPkTimeStampNS s h1 / kDivisorNS)
      ∧ u32 (CalcPkTimeStampNS s h1 % kDivisorNS) ≤ u32 (CalcPkTimeStampNS s h2 % kDivisorNS))
  have hk : kDivisorNS = 10 ^ 9 := by decide
  rw [hk]
  unfold u32
  generalize CalcPkTimeStampNS s h1 = x at hle ⊢
  generalize CalcPkTimeStampNS s h2 = y at hle hs2 ⊢
  omega

/-- C20, at an instance: with the anchor at tick 1000, the record for tick 3000 is not less
than the record for tick 2000. -/
theorem builtRec_key_monotone_witness :
    (builtRec (sampleAnchored 0) (AdjustEndian (sampleHdr 3000 60 0)) []).lt
        (builtRec (sampleAnchored 0) (AdjustEndian (sampleHdr 2000 60 0)) []) = false :=
  (builtRec_key_monotone (sampleAnchored 0) (AdjustEndian (sampleHdr 2000 60 0))
    (AdjustEndian (sampleHdr 3000 60 0)) [] [] (by decide) (by decide) (by decide) (by decide)
    (by decide)).2.1

/-! ## Delivery in chunks -/

/-- C18: with loss checking disabled, for every stream that is a concatenation of complete
frames of valid size with non-zero ticks and every cutting of the stream into chunks delivered
in successive receive events, the unconsumed bytes staying in the queue, the chunked delivery
and the delivery in one receive event both return with the queue empty, and they leave the same
container of inserted records, the same anchor, the same `PcapCount_` and the same
`gLastRxNS`: both have handled the frames one by one in the order of the stream. -/
theorem OnDevice_Recv_chunking (env : Env) (s0 : Session) (frames chunks : List (List Nat))
    (hoff : env.gIsCheckLost = false) (hvalid : ∀ f ∈ frames, ValidFrame f)
    (hsplit : chunks.flatten = frames.flatten) :
    ∃ a b, runEvents env (s0, []) (chunks.map Event.recv) = some a
      ∧ OnDevice_Recv env s0 frames.flatten = some b
      ∧ a.2 = [] ∧ b.2 = []
      ∧ a.1.gPcapList = b.1.gPcapList
      ∧ a.1.g1stPkTickClkN = b.1.g1stPkTickClkN
      ∧ a.1.g1stPkTimeStampNS = b.1.g1stPkTimeStampNS
      ∧ a.1.PcapCount_ = b.1.PcapCount_
      ∧ a.1.gLastRxNS = b.1.gLastRxNS
      ∧ SameRecords a.1 (frames.foldl (frameStep env) s0)
      ∧ SameRecords b.1 (frames.foldl (frameStep env) s0) := by
  have hnil : PartialFrame [] := Or.inl (by decide)
  obtain ⟨a, ha, hqa, hsa⟩ := runEvents_chunks env hoff chunks frames s0 s0 [] hvalid hnil
    (by rw [List.nil_append]; exact hsplit) (SameRecords.refl s0)
  have hb : OnDevice_Recv env s0 frames.flatten
      = some (frames.foldl (frameStep env) { s0 with RxEvCount_ := u64 (s0.RxEvCount_ + 1) },
          []) := by
    unfold OnDevice_Recv
    have h := recvLoop_frames env hoff frames hvalid
      { s0 with RxEvCount_ := u64 (s0.RxEvCount_ + 1) } [] (frames.flatten.length + 1) hnil
      (by rw [List.append_nil]; exact Nat.lt_succ_self _)
    rw [List.append_nil] at h
    exact h
  have hsb : SameRecords
      (frames.foldl (frameStep env) { s0 with RxEvCount_ := u64 (s0.RxEvCount_ + 1) })
      (frames.foldl (frameStep env) s0) :=
    foldl_frameStep_SameRecords env frames _ _
      (show SameRecords { s0 with RxEvCount_ := u64 (s0.RxEvCount_ + 1) } s0 from
        SameRecords.refl s0)
  have hab := hsa.trans hsb.symm
  exact ⟨a, _, ha, hb, hqa, rfl, hab.2.2.2.2.2.1, hab.2.1, hab.1, hab.2.2.2.2.1, hab.2.2.1,
    hsa, hsb⟩

/-- C18, at an instance: three frames, the second one stale, delivered in chunks of 10, 90, 0
and 131 bytes, leave the same two records and the same anchor as one delivery. -/
theorem OnDevice_Recv_chunking_witness :
    ∃ a b, runEvents sampleEnv ({}, []) (sampleChunks.map Event.recv) = some a
      ∧ OnDevice_Recv sampleEnv {} sampleFrames.flatten = some b
      ∧ a.1.gPcapList = b.1.gPcapList
      ∧ a.1.g1stPkTickClkN = b.1.g1stPkTickClkN
      ∧ a.1.g1stPkTimeStampNS = b.1.g1stPkTimeStampNS :=
  (OnDevice_Recv_chunking sampleEnv {} sampleFrames sampleChunks rfl
      (by
        intro f hf
        simp only [sampleFrames, List.mem_cons, List.mem_singleton, List.not_mem_nil,
          or_false] at hf
        rcases hf with rfl | rfl | rfl <;> (unfold ValidFrame; decide))
      (by
        unfold sampleChunks
        generalize sampleFrames.flatten = l
        have h : l.drop 100 = (l.drop 10).drop 90 := by simp [List.drop_drop]
        simp only [List.flatten_cons, List.flatten_nil, List.nil_append, List.append_nil]
        rw [h, List.take_append_drop, List.take_append_drop])).imp
    (fun _ h => h.imp (fun _ k => ⟨k.1, k.2.1, k.2.2.2.2.1, k.2.2.2.2.2.1, k.2.2.2.2.2.2.1⟩))

end F9pcap
